import Mathlib

/-!
# Verification of the diagram editor's scene-geometry and interaction engine

A shallow embedding of the editor core (`src/model.rs`, `src/app/mod.rs`,
`src/app/geometry.rs`, `src/app/actions.rs`, `src/app/doc_ops.rs`,
`src/app/update.rs`) in Lean 4, with theorems settling the specification's
claims about it.

Modelling conventions:
* `f32` values are modelled as real numbers (`ℝ`).  The code's floating
  comparisons against `f32::EPSILON` are kept literally, with
  `f32Epsilon = 2⁻²³` (the value of `f32::EPSILON`).
* `u64` ids are modelled as `ℕ` (the allocator is a monotone counter; no
  wraparound is reachable in a session).
* Rust `HashSet<u64>` values are modelled as `Finset ℕ`; where the code
  iterates a hash set in unspecified order, the model iterates in sorted
  order and the accompanying comment notes it.
* The text-measurement collaborator (`text_format::visual_char_count`) is
  out of the specification's scope (§1, §6 of the spec treat it as an
  opaque external capability); definitions that need it take it as an
  explicit function parameter `vcc : String → ℕ`.
-/

noncomputable section

/-- `f32::EPSILON` (= 2⁻²³), used literally by the code's degeneracy guards. -/
def f32Epsilon : ℝ := 1 / 2 ^ 23

/-- Rust `f32::clamp(lo, hi)` (model.rs / mod.rs / geometry.rs call sites). -/
def clampF (x lo hi : ℝ) : ℝ := if x < lo then lo else if x > hi then hi else x

/-- Rust `f32::signum`: 1 for non-negative (including +0), −1 for negative. -/
def signumF (x : ℝ) : ℝ := if x < 0 then -1 else 1

/-- `model::Point` (model.rs).  Also stands in for `egui::Pos2`/`egui::Vec2`,
which are the same data (a pair of `f32`). -/
structure Point where
  x : ℝ
  y : ℝ

instance : Add Point := ⟨fun a b => ⟨a.x + b.x, a.y + b.y⟩⟩
instance : Sub Point := ⟨fun a b => ⟨a.x - b.x, a.y - b.y⟩⟩
instance : Neg Point := ⟨fun a => ⟨-a.x, -a.y⟩⟩

/-- Scalar multiple of a point/vector (`w * zoom` etc.). -/
def Point.smul (p : Point) (k : ℝ) : Point := ⟨p.x * k, p.y * k⟩

theorem Point.ext_xy {a b : Point} (hx : a.x = b.x) (hy : a.y = b.y) : a = b := by
  cases a; cases b; simp_all

/-- `model::RectF` (model.rs).  Also stands in for `egui::Rect` (both are a
min/max pair of points; `RectF::to_rect` is the identity in this model). -/
structure RectF where
  min : Point
  max : Point

/-- `egui::Rect::center`. -/
def RectF.center (r : RectF) : Point := ⟨(r.min.x + r.max.x) / 2, (r.min.y + r.max.y) / 2⟩

/-- `egui::Rect::size` (also `width`/`height` via `.x`/`.y`). -/
def RectF.size (r : RectF) : Point := ⟨r.max.x - r.min.x, r.max.y - r.min.y⟩

/-- `egui::Rect::expand(amount)`: grow by `amount` on every side. -/
def RectF.expand (r : RectF) (amount : ℝ) : RectF :=
  ⟨⟨r.min.x - amount, r.min.y - amount⟩, ⟨r.max.x + amount, r.max.y + amount⟩⟩

/-- `egui::Rect::union`. -/
def RectF.union (a b : RectF) : RectF :=
  ⟨⟨Min.min a.min.x b.min.x, Min.min a.min.y b.min.y⟩,
   ⟨Max.max a.max.x b.max.x, Max.max a.max.y b.max.y⟩⟩

/-- `egui::Rect::from_two_pos` (componentwise min/max of the two points). -/
def rectFromTwoPos (a b : Point) : RectF :=
  ⟨⟨Min.min a.x b.x, Min.min a.y b.y⟩, ⟨Max.max a.x b.x, Max.max a.y b.y⟩⟩

/-!
## View (src/app/mod.rs, lines 111–146)
-/

/-- `View` (mod.rs): screen-space pan offset and zoom factor. -/
structure View where
  pan_screen : Point
  zoom : ℝ

/-- `View::world_to_screen` (mod.rs): `origin + pan + world·zoom`. -/
def View.world_to_screen (v : View) (origin world : Point) : Point :=
  origin + v.pan_screen + world.smul v.zoom

/-- `View::screen_to_world` (mod.rs): `(screen - origin - pan) / zoom`. -/
def View.screen_to_world (v : View) (origin screen : Point) : Point :=
  ⟨(screen.x - origin.x - v.pan_screen.x) / v.zoom,
   (screen.y - origin.y - v.pan_screen.y) / v.zoom⟩

/-- `View::zoom_about_screen_point` (mod.rs, lines 135–145): clamp the
multiplied zoom to `[0.1, 8.0]`, then shift the pan so the anchored world
point stays under the given screen point. -/
def View.zoom_about_screen_point (v : View) (origin screen_point : Point)
    (zoom_delta : ℝ) : View :=
  let before := v.screen_to_world origin screen_point
  let zoom' := clampF (v.zoom * zoom_delta) 0.1 8.0
  let after_screen := View.world_to_screen ⟨v.pan_screen, zoom'⟩ origin before
  ⟨v.pan_screen + (screen_point - after_screen), zoom'⟩

theorem clampF_pos {x lo hi : ℝ} (hlo : 0 < lo) (hhi : 0 < hi) :
    0 < clampF x lo hi := by
  unfold clampF
  split
  · exact hlo
  · split
    · exact hhi
    · next h _ => linarith [not_lt.mp h]

/-- C3: after `zoom_about_screen_point(origin, s, f)` the world point under
the screen point `s` is unchanged (exactly, in real arithmetic), and the new
zoom is the old zoom times `f`, clamped to `[0.1, 8.0]`. -/
theorem zoom_anchor_invariant (v : View) (origin s : Point) (f : ℝ) :
    (v.zoom_about_screen_point origin s f).screen_to_world origin s
      = v.screen_to_world origin s ∧
    (v.zoom_about_screen_point origin s f).zoom = clampF (v.zoom * f) 0.1 8.0 := by
  have hz : clampF (v.zoom * f) 0.1 8.0 ≠ 0 :=
    ne_of_gt (clampF_pos (by norm_num) (by norm_num))
  refine ⟨?_, rfl⟩
  apply Point.ext_xy
  · show (s.x - origin.x - (v.pan_screen.x +
        (s.x - (origin.x + v.pan_screen.x +
          ((s.x - origin.x - v.pan_screen.x) / v.zoom) * clampF (v.zoom * f) 0.1 8.0))))
      / clampF (v.zoom * f) 0.1 8.0
      = (s.x - origin.x - v.pan_screen.x) / v.zoom
    rw [show s.x - origin.x - (v.pan_screen.x +
        (s.x - (origin.x + v.pan_screen.x +
          ((s.x - origin.x - v.pan_screen.x) / v.zoom) * clampF (v.zoom * f) 0.1 8.0)))
      = ((s.x - origin.x - v.pan_screen.x) / v.zoom) * clampF (v.zoom * f) 0.1 8.0
      from by ring]
    exact mul_div_cancel_right₀ _ hz
  · show (s.y - origin.y - (v.pan_screen.y +
        (s.y - (origin.y + v.pan_screen.y +
          ((s.y - origin.y - v.pan_screen.y) / v.zoom) * clampF (v.zoom * f) 0.1 8.0))))
      / clampF (v.zoom * f) 0.1 8.0
      = (s.y - origin.y - v.pan_screen.y) / v.zoom
    rw [show s.y - origin.y - (v.pan_screen.y +
        (s.y - (origin.y + v.pan_screen.y +
          ((s.y - origin.y - v.pan_screen.y) / v.zoom) * clampF (v.zoom * f) 0.1 8.0)))
      = ((s.y - origin.y - v.pan_screen.y) / v.zoom) * clampF (v.zoom * f) 0.1 8.0
      from by ring]
    exact mul_div_cancel_right₀ _ hz

/-!
## Document model (src/model.rs)
-/

/-- `model::Rgba` (model.rs). -/
structure Rgba where
  r : ℕ
  g : ℕ
  b : ℕ
  a : ℕ
deriving DecidableEq

/-- `model::LineStyle` (model.rs). -/
inductive LineStyleK where
  | solid
  | dashed
  | dotted
deriving DecidableEq

/-- `model::TextAlign` (model.rs). -/
inductive TextAlign where
  | left
  | center
  | right
deriving DecidableEq

/-- `model::FontFamily` (model.rs). -/
inductive FontFamily where
  | proportional
  | monospace
deriving DecidableEq

/-- `model::StrokeStyle` (model.rs). -/
structure StrokeStyle where
  color : Rgba
  width : ℝ
  line_style : LineStyleK

/-- `model::Style` (model.rs). -/
structure Style where
  stroke : StrokeStyle
  fill : Option Rgba
  text_color : Rgba
  text_size : ℝ
  text_align : TextAlign
  font_family : FontFamily

/-- `model::Group` (model.rs): group record with an optional parent group.
Named `GroupRec` here because Lean's `Group` is taken by Mathlib. -/
structure GroupRec where
  id : ℕ
  parent_id : Option ℕ
deriving DecidableEq

/-- `model::Binding` (model.rs): weak reference to a target element by id,
plus a normalized local-frame position. -/
structure Binding where
  element_id : ℕ
  norm : Point

/-- `model::ArrowStyle` (model.rs). -/
inductive ArrowStyle where
  | none
  | endArrow
  | startArrow
  | both
deriving DecidableEq

/-- `model::ElementKind` (model.rs): the closed variant set of shapes. -/
inductive ElementKind where
  | rect (rect : RectF) (label : String)
  | ellipse (rect : RectF) (label : String)
  | triangle (rect : RectF) (label : String) (apex_ratio : ℝ)
  | parallelogram (rect : RectF) (label : String) (skew_ratio : ℝ)
  | trapezoid (rect : RectF) (label : String) (top_inset_ratio : ℝ)
  | line (a b : Point) (arrow : Bool) (arrow_style : ArrowStyle)
      (start_binding end_binding : Option Binding)
  | polyline (points : List Point) (arrow_style : ArrowStyle)
  | pen (points : List Point)
  | text (pos : Point) (text : String)

/-- `model::Element` (model.rs). -/
structure Element where
  id : ℕ
  group_id : Option ℕ
  rotation : ℝ
  snap_enabled : Bool
  kind : ElementKind
  style : Style

/-- `model::Document` (model.rs): ordered elements (paint order) plus groups. -/
structure Document where
  elements : List Element
  groups : List GroupRec

/-!
## Geometry kernel (src/app/geometry.rs, src/model.rs)
-/

/-- `rotate_vec2` (geometry.rs): standard 2D rotation by `angle`. -/
def rotate_vec2 (v : Point) (angle : ℝ) : Point :=
  ⟨v.x * Real.cos angle - v.y * Real.sin angle,
   v.x * Real.sin angle + v.y * Real.cos angle⟩

/-- The corner list `[left_top, right_top, right_bottom, left_bottom]` used by
both `rotated_rect_points_world` (geometry.rs) and `rotated_rect_aabb`
(model.rs). -/
def rectCorners (rect : RectF) : List Point :=
  [rect.min, ⟨rect.max.x, rect.min.y⟩, rect.max, ⟨rect.min.x, rect.max.y⟩]

/-- `rotated_rect_points_world` (geometry.rs): the rect's corners rotated
about its center. -/
def rotated_rect_points_world (rect : RectF) (rotation : ℝ) : List Point :=
  (rectCorners rect).map fun p => rect.center + rotate_vec2 (p - rect.center) rotation

/-- `rotated_parallelogram_points_world` (geometry.rs): parallelogram outline,
top/bottom edges offset by the clamped skew ratio, rotated about the center. -/
def rotated_parallelogram_points_world (rect : RectF) (rotation skew_ratio : ℝ) :
    List Point :=
  let half_w := rect.size.x * (1 / 2)
  let half_h := rect.size.y * (1 / 2)
  let skew := clampF skew_ratio (-0.95) 0.95 * half_w
  ([⟨-half_w + skew, -half_h⟩, ⟨half_w + skew, -half_h⟩,
    ⟨half_w - skew, half_h⟩, ⟨-half_w - skew, half_h⟩] : List Point).map
    fun v => rect.center + rotate_vec2 v rotation

/-- `aabb_of_points` (geometry.rs): componentwise min/max fold.  The source
starts from `±INFINITY` and returns `egui::Rect::NOTHING` when no point makes
the accumulators finite; `ℝ` has no infinities, so the model folds from the
first point and returns the degenerate zero rect for an empty list (the only
case in which the source would return `NOTHING`). -/
def aabbOfPoints (points : List Point) : RectF :=
  match points with
  | [] => ⟨⟨0, 0⟩, ⟨0, 0⟩⟩
  | p :: rest =>
    rest.foldl (fun (acc : RectF) (q : Point) =>
      ⟨⟨Min.min acc.min.x q.x, Min.min acc.min.y q.y⟩,
       ⟨Max.max acc.max.x q.x, Max.max acc.max.y q.y⟩⟩) ⟨p, p⟩

/-- `rotated_rect_aabb` (model.rs): identity for near-zero rotation (the
`|rotation| ≤ f32::EPSILON` shortcut), otherwise the componentwise min/max of
the four rotated corners. -/
def rotated_rect_aabb (rect : RectF) (rotation : ℝ) : RectF :=
  if |rotation| ≤ f32Epsilon then rect
  else aabbOfPoints (rotated_rect_points_world rect rotation)

/-- The 32 sample points of `rotated_ellipse_aabb` (model.rs): the ellipse
parametrized at `t = i/32·τ`, rotated. -/
def ellipseAabbSamples (rect : RectF) (rotation : ℝ) : List Point :=
  (List.range 32).map fun i =>
    let t := (i : ℝ) / 32 * (2 * Real.pi)
    rect.center + rotate_vec2 ⟨Real.cos t * (rect.size.x * (1 / 2)),
                               Real.sin t * (rect.size.y * (1 / 2))⟩ rotation

/-- `rotated_ellipse_aabb` (model.rs): identity for degenerate radii or
near-zero rotation, otherwise the AABB of 32 sampled boundary points. -/
def rotated_ellipse_aabb (rect : RectF) (rotation : ℝ) : RectF :=
  if rect.size.x * (1 / 2) ≤ f32Epsilon ∨ rect.size.y * (1 / 2) ≤ f32Epsilon then rect
  else if |rotation| ≤ f32Epsilon then rect
  else aabbOfPoints (ellipseAabbSamples rect rotation)

/-- `Element::bounds` (model.rs): the element's axis-aligned bounding box.
Rect-family kinds bound the rotated local rect; lines and point sequences
bound their stored points; all of these are then expanded by the full stroke
width (`.expand(self.style.stroke.width)`).  Text uses the measured text box,
unexpanded.  `vcc` is the text-measurement collaborator
(`text_format::visual_char_count`). -/
def element_bounds (vcc : String → ℕ) (e : Element) : RectF :=
  match e.kind with
  | .rect rect _ | .triangle rect _ _ | .parallelogram rect _ _ | .trapezoid rect _ _ =>
    (rotated_rect_aabb rect e.rotation).expand e.style.stroke.width
  | .ellipse rect _ =>
    (rotated_ellipse_aabb rect e.rotation).expand e.style.stroke.width
  | .line a b _ _ _ _ =>
    (rectFromTwoPos a b).expand e.style.stroke.width
  | .polyline points _ | .pen points =>
    (aabbOfPoints points).expand e.style.stroke.width
  | .text pos text =>
    let w := Max.max ((vcc text : ℝ)) 1 * e.style.text_size * 0.6
    let h := e.style.text_size * 1.2
    let x := match e.style.text_align with
      | .left => pos.x
      | .center => pos.x - w * 0.5
      | .right => pos.x - w
    ⟨⟨x, pos.y⟩, ⟨x + w, pos.y + h⟩⟩

/-- `translate_element` (geometry.rs): shift every stored coordinate of the
element's kind payload by `delta_world`; no other field is touched. -/
def translate_element (e : Element) (delta_world : Point) : Element :=
  { e with kind :=
    match e.kind with
    | .rect rect label => .rect ⟨rect.min + delta_world, rect.max + delta_world⟩ label
    | .ellipse rect label => .ellipse ⟨rect.min + delta_world, rect.max + delta_world⟩ label
    | .triangle rect label ar => .triangle ⟨rect.min + delta_world, rect.max + delta_world⟩ label ar
    | .parallelogram rect label sr =>
      .parallelogram ⟨rect.min + delta_world, rect.max + delta_world⟩ label sr
    | .trapezoid rect label tr =>
      .trapezoid ⟨rect.min + delta_world, rect.max + delta_world⟩ label tr
    | .line a b arrow as sb eb => .line (a + delta_world) (b + delta_world) arrow as sb eb
    | .polyline points as => .polyline (points.map (· + delta_world)) as
    | .pen points => .pen (points.map (· + delta_world))
    | .text pos text => .text (pos + delta_world) text }

/-!
## Binding resolution (src/app/geometry.rs, lines 220–343)
-/

/-- The local bounding rect of a bindable kind (rect family or ellipse);
`none` for line/polyline/pen/text, which are never bind targets. -/
def bindableRect (k : ElementKind) : Option RectF :=
  match k with
  | .rect rect _ | .ellipse rect _ | .triangle rect _ _
  | .parallelogram rect _ _ | .trapezoid rect _ _ => some rect
  | _ => none

/-- Whether the kind is in the rect family (Rect/Triangle/Parallelogram/
Trapezoid) — the edge-snapping branch of `compute_binding_for_element`. -/
def isRectFamily (k : ElementKind) : Prop :=
  match k with
  | .rect _ _ | .triangle _ _ _ | .parallelogram _ _ _ | .trapezoid _ _ _ => True
  | _ => False

/-- Whether the kind is an ellipse. -/
def isEllipse (k : ElementKind) : Prop :=
  match k with
  | .ellipse _ _ => True
  | _ => False

/-- `vec2::length`: Euclidean norm. -/
def vecLength (v : Point) : ℝ := Real.sqrt (v.x * v.x + v.y * v.y)

/-- `compute_binding_for_element` (geometry.rs, lines 271–324): project the
world point into the target's unrotated local frame, normalize by its size,
clamp to `[-0.5, 0.5]²`, then snap to the nearest edge (rect family) or to
the ellipse boundary (ellipse).  `none` for non-bindable kinds or a size
whose width or height is `≤ f32::EPSILON`. -/
def compute_binding_for_element (e : Element) (world_pos : Point) : Option Binding :=
  match bindableRect e.kind with
  | none => none
  | some rect =>
    if rect.size.x ≤ f32Epsilon ∨ rect.size.y ≤ f32Epsilon then none
    else
      let lo := rotate_vec2 (world_pos - rect.center) (-e.rotation)
      let nx := clampF (lo.x / rect.size.x) (-0.5) 0.5
      let ny := clampF (lo.y / rect.size.y) (-0.5) 0.5
      match e.kind with
      | .rect _ _ | .triangle _ _ _ | .parallelogram _ _ _ | .trapezoid _ _ _ =>
        let dx := 0.5 - |nx|
        let dy := 0.5 - |ny|
        if dx < dy then some ⟨e.id, ⟨signumF nx * 0.5, ny⟩⟩
        else some ⟨e.id, ⟨nx, signumF ny * 0.5⟩⟩
      | .ellipse _ _ =>
        let n := vecLength ⟨nx, ny⟩
        if n ≤ f32Epsilon then some ⟨e.id, ⟨0.5, 0⟩⟩
        else some ⟨e.id, ⟨nx / n * 0.5, ny / n * 0.5⟩⟩
      | _ => some ⟨e.id, ⟨nx, ny⟩⟩

/-- `compute_binding_for_target` (geometry.rs, lines 262–269): find the
target element by id, then compute the binding against it. -/
def compute_binding_for_target (doc : Document) (target_id : ℕ) (world_pos : Point) :
    Option Binding :=
  (doc.elements.find? (fun e => e.id = target_id)).bind
    fun e => compute_binding_for_element e world_pos

/-- `resolve_binding_point` (geometry.rs, lines 326–343): denormalize the
binding's `norm` by the target's size, rotate by the target's rotation, and
translate to world space; `none` when the target id is missing or not a
bindable kind. -/
def resolve_binding_point (doc : Document) (binding : Binding) : Option Point :=
  (doc.elements.find? (fun e => e.id = binding.element_id)).bind fun e =>
    match bindableRect e.kind with
    | none => none
    | some rect =>
      some (rect.center + rotate_vec2
        ⟨binding.norm.x * rect.size.x, binding.norm.y * rect.size.y⟩ e.rotation)

/-- `resolved_line_endpoints_world` (geometry.rs, lines 220–238): the
effective endpoints of a line — the resolved binding point when a binding
exists and resolves, else the stored literal endpoint. -/
def resolved_line_endpoints_world (doc : Document) (a b : Point)
    (start_binding end_binding : Option Binding) : Point × Point :=
  ((start_binding.bind (resolve_binding_point doc)).getD a,
   (end_binding.bind (resolve_binding_point doc)).getD b)

/-- C10: `translate_element` adds the delta to every stored coordinate of the
kind payload — rect min and max for the rect family and ellipse, both line
endpoints, every polyline/pen point, the text anchor — and changes nothing
else: id, group_id, rotation, snap_enabled, style, labels, text content,
arrow settings and line bindings are all unchanged. -/
theorem translate_element_frame (e : Element) (d : Point) :
    (translate_element e d).id = e.id ∧
    (translate_element e d).group_id = e.group_id ∧
    (translate_element e d).rotation = e.rotation ∧
    (translate_element e d).snap_enabled = e.snap_enabled ∧
    (translate_element e d).style = e.style ∧
    (∀ r l, e.kind = .rect r l →
      (translate_element e d).kind = .rect ⟨r.min + d, r.max + d⟩ l) ∧
    (∀ r l, e.kind = .ellipse r l →
      (translate_element e d).kind = .ellipse ⟨r.min + d, r.max + d⟩ l) ∧
    (∀ r l ar, e.kind = .triangle r l ar →
      (translate_element e d).kind = .triangle ⟨r.min + d, r.max + d⟩ l ar) ∧
    (∀ r l sr, e.kind = .parallelogram r l sr →
      (translate_element e d).kind = .parallelogram ⟨r.min + d, r.max + d⟩ l sr) ∧
    (∀ r l tr, e.kind = .trapezoid r l tr →
      (translate_element e d).kind = .trapezoid ⟨r.min + d, r.max + d⟩ l tr) ∧
    (∀ a b arrow ast sb eb, e.kind = .line a b arrow ast sb eb →
      (translate_element e d).kind = .line (a + d) (b + d) arrow ast sb eb) ∧
    (∀ pts ast, e.kind = .polyline pts ast →
      (translate_element e d).kind = .polyline (pts.map (· + d)) ast) ∧
    (∀ pts, e.kind = .pen pts →
      (translate_element e d).kind = .pen (pts.map (· + d))) ∧
    (∀ p t, e.kind = .text p t →
      (translate_element e d).kind = .text (p + d) t) := by
  refine ⟨rfl, rfl, rfl, rfl, rfl, ?_, ?_, ?_, ?_, ?_, ?_, ?_, ?_, ?_⟩ <;>
    intros <;> simp only [translate_element] <;> (rename_i h; rw [h])

/-- Witness for C10 at a concrete rectangle element. -/
theorem translate_element_frame_witness :
    (translate_element
      ⟨7, some 3, 0, true, .rect ⟨⟨1, 2⟩, ⟨5, 6⟩⟩ "lbl",
        ⟨⟨⟨0, 0, 0, 255⟩, 2, .solid⟩, none, ⟨0, 0, 0, 255⟩, 16, .center, .proportional⟩⟩
      ⟨10, 20⟩).id = 7 ∧
    (translate_element
      ⟨7, some 3, 0, true, .rect ⟨⟨1, 2⟩, ⟨5, 6⟩⟩ "lbl",
        ⟨⟨⟨0, 0, 0, 255⟩, 2, .solid⟩, none, ⟨0, 0, 0, 255⟩, 16, .center, .proportional⟩⟩
      ⟨10, 20⟩).kind = .rect ⟨⟨1, 2⟩ + ⟨10, 20⟩, ⟨5, 6⟩ + ⟨10, 20⟩⟩ "lbl" := by
  refine ⟨(translate_element_frame _ _).1, ?_⟩
  exact (translate_element_frame _ ⟨10, 20⟩).2.2.2.2.2.1 ⟨⟨1, 2⟩, ⟨5, 6⟩⟩ "lbl" rfl

/-!
## C7: Element::bounds vs the rotated outline
-/

/-- The local rect of a rect-family kind (Rect/Triangle/Parallelogram/
Trapezoid); `none` for every other kind. -/
def rectFamilyRect (k : ElementKind) : Option RectF :=
  match k with
  | .rect rect _ | .triangle rect _ _ | .parallelogram rect _ _
  | .trapezoid rect _ _ => some rect
  | _ => none

theorem rotate_vec2_zero (v : Point) : rotate_vec2 v 0 = v := by
  simp [rotate_vec2]

theorem Point.add_x (a b : Point) : (a + b).x = a.x + b.x := rfl

theorem Point.add_y (a b : Point) : (a + b).y = a.y + b.y := rfl

theorem Point.sub_x (a b : Point) : (a - b).x = a.x - b.x := rfl

theorem Point.sub_y (a b : Point) : (a - b).y = a.y - b.y := rfl

theorem point_add_sub_cancel (c p : Point) : c + (p - c) = p := by
  apply Point.ext_xy <;> simp [Point.add_x, Point.add_y, Point.sub_x, Point.sub_y]

theorem aabbOfPoints_rectCorners (r : RectF) (hx : r.min.x ≤ r.max.x)
    (hy : r.min.y ≤ r.max.y) : aabbOfPoints (rectCorners r) = r := by
  cases r with
  | mk mn mx =>
    cases mn with
    | mk ax ay =>
      cases mx with
      | mk bx by' =>
        simp only [aabbOfPoints, rectCorners, List.foldl]
        simp only [RectF.min, RectF.max] at hx hy
        apply congrArg₂ RectF.mk <;> apply Point.ext_xy <;>
          simp [min_eq_left, max_eq_right, hx, hy, min_def, max_def]

theorem rotated_rect_aabb_eq_outline (r : RectF) (rot : ℝ)
    (hrot : (rot = 0 ∧ r.min.x ≤ r.max.x ∧ r.min.y ≤ r.max.y) ∨ f32Epsilon < |rot|) :
    rotated_rect_aabb r rot = aabbOfPoints (rotated_rect_points_world r rot) := by
  rcases hrot with ⟨h0, hx, hy⟩ | hgt
  · subst h0
    rw [rotated_rect_aabb, if_pos, rotated_rect_points_world]
    · have hmap : (rectCorners r).map
          (fun p => r.center + rotate_vec2 (p - r.center) 0) = rectCorners r := by
        simp [rotate_vec2_zero, point_add_sub_cancel]
      rw [hmap, aabbOfPoints_rectCorners r hx hy]
    · rw [abs_zero]; unfold f32Epsilon; positivity
  · rw [rotated_rect_aabb, if_neg (not_le.mpr hgt), rotated_rect_points_world]

/-- C7 (amended): for every rect-family element (Rect, Triangle,
Parallelogram, Trapezoid) whose local rect is normalized when unrotated —
rotation exactly 0, or above the `f32::EPSILON` shortcut — `Element::bounds`
equals the AABB of the element's rotated local **rectangle** corners expanded
by the **full** stroke width (not the shape outline, and not half the
width). -/
theorem bounds_rect_family_full_stroke (vcc : String → ℕ) (e : Element) (r : RectF)
    (h : rectFamilyRect e.kind = some r)
    (hrot : (e.rotation = 0 ∧ r.min.x ≤ r.max.x ∧ r.min.y ≤ r.max.y)
      ∨ f32Epsilon < |e.rotation|) :
    element_bounds vcc e
      = (aabbOfPoints (rotated_rect_points_world r e.rotation)).expand
          e.style.stroke.width := by
  obtain ⟨eid, gid, rot, snap, k, st⟩ := e
  simp only at hrot ⊢
  cases k with
  | rect rc label =>
    simp only [rectFamilyRect, Option.some.injEq] at h
    subst h
    show (rotated_rect_aabb rc rot).expand st.stroke.width = _
    rw [rotated_rect_aabb_eq_outline rc rot hrot]
  | triangle rc label ar =>
    simp only [rectFamilyRect, Option.some.injEq] at h
    subst h
    show (rotated_rect_aabb rc rot).expand st.stroke.width = _
    rw [rotated_rect_aabb_eq_outline rc rot hrot]
  | parallelogram rc label sr =>
    simp only [rectFamilyRect, Option.some.injEq] at h
    subst h
    show (rotated_rect_aabb rc rot).expand st.stroke.width = _
    rw [rotated_rect_aabb_eq_outline rc rot hrot]
  | trapezoid rc label tr =>
    simp only [rectFamilyRect, Option.some.injEq] at h
    subst h
    show (rotated_rect_aabb rc rot).expand st.stroke.width = _
    rw [rotated_rect_aabb_eq_outline rc rot hrot]
  | ellipse rc label => simp [rectFamilyRect] at h
  | line a b arrow ast sb eb => simp [rectFamilyRect] at h
  | polyline pts ast => simp [rectFamilyRect] at h
  | pen pts => simp [rectFamilyRect] at h
  | text p t => simp [rectFamilyRect] at h

theorem Point.mk_add_mk (a b c d : ℝ) : (⟨a, b⟩ + ⟨c, d⟩ : Point) = ⟨a + c, b + d⟩ := rfl

theorem Point.mk_sub_mk (a b c d : ℝ) : (⟨a, b⟩ - ⟨c, d⟩ : Point) = ⟨a - c, b - d⟩ := rfl

/-- A plain default-like style with stroke width 2, used in concrete
counterexample/witness states. -/
def styleW : Style :=
  ⟨⟨⟨30, 30, 30, 255⟩, 2, .solid⟩, none, ⟨30, 30, 30, 255⟩, 16, .center, .proportional⟩

/-- C7 counterexample: (a) for an unrotated 100×100 rectangle with stroke
width 2, `bounds()` is the rect expanded by the full stroke width 2, not by
half of it; (b) for an unrotated parallelogram with skew ratio 0.25,
`bounds()` is not the AABB of the shape's outline even when expanded by the
full stroke width — it bounds the local rect, ignoring the skew overhang. -/
theorem bounds_half_stroke_counterexample :
    element_bounds (fun _ => 0)
        ⟨1, none, 0, true, .rect ⟨⟨0, 0⟩, ⟨100, 100⟩⟩ "", styleW⟩
      ≠ (aabbOfPoints (rotated_rect_points_world ⟨⟨0, 0⟩, ⟨100, 100⟩⟩ 0)).expand (2 / 2) ∧
    element_bounds (fun _ => 0)
        ⟨2, none, 0, true, .parallelogram ⟨⟨0, 0⟩, ⟨100, 40⟩⟩ "" 0.25, styleW⟩
      ≠ (aabbOfPoints
          (rotated_parallelogram_points_world ⟨⟨0, 0⟩, ⟨100, 40⟩⟩ 0 0.25)).expand 2 := by
  have habs : |(0 : ℝ)| ≤ f32Epsilon := by rw [abs_zero]; unfold f32Epsilon; positivity
  constructor
  · have hout : aabbOfPoints (rotated_rect_points_world ⟨⟨0, 0⟩, ⟨100, 100⟩⟩ 0)
        = ⟨⟨0, 0⟩, ⟨100, 100⟩⟩ := by
      rw [← rotated_rect_aabb_eq_outline _ 0 (Or.inl ⟨rfl, by norm_num, by norm_num⟩),
        rotated_rect_aabb, if_pos habs]
    intro heq
    rw [show element_bounds (fun _ => 0)
          ⟨1, none, 0, true, .rect ⟨⟨0, 0⟩, ⟨100, 100⟩⟩ "", styleW⟩
        = (rotated_rect_aabb ⟨⟨0, 0⟩, ⟨100, 100⟩⟩ 0).expand styleW.stroke.width from rfl,
      rotated_rect_aabb, if_pos habs, hout] at heq
    have hx := congrArg (fun q => q.min.x) heq
    simp only [RectF.expand] at hx
    norm_num [styleW] at hx
  · have hpts : rotated_parallelogram_points_world ⟨⟨0, 0⟩, ⟨100, 40⟩⟩ 0 0.25
        = [⟨12.5, 0⟩, ⟨112.5, 0⟩, ⟨87.5, 40⟩, ⟨-12.5, 40⟩] := by
      simp only [rotated_parallelogram_points_world, RectF.size, RectF.center, List.map,
        rotate_vec2, Real.cos_zero, Real.sin_zero, clampF]
      norm_num [Point.mk_add_mk]
    have hpar : aabbOfPoints (rotated_parallelogram_points_world ⟨⟨0, 0⟩, ⟨100, 40⟩⟩ 0 0.25)
        = ⟨⟨-12.5, 0⟩, ⟨112.5, 40⟩⟩ := by
      rw [hpts]
      simp only [aabbOfPoints, List.foldl]
      norm_num [min_def, max_def]
    intro heq
    rw [show element_bounds (fun _ => 0)
          ⟨2, none, 0, true, .parallelogram ⟨⟨0, 0⟩, ⟨100, 40⟩⟩ "" 0.25, styleW⟩
        = (rotated_rect_aabb ⟨⟨0, 0⟩, ⟨100, 40⟩⟩ 0).expand styleW.stroke.width from rfl,
      rotated_rect_aabb, if_pos habs, hpar] at heq
    have hx := congrArg (fun q => q.min.x) heq
    simp only [RectF.expand] at hx
    norm_num [styleW] at hx

/-- Witness for C7's amended theorem at a concrete unrotated rectangle. -/
theorem bounds_rect_family_full_stroke_witness :
    element_bounds (fun _ => 0)
        ⟨1, none, 0, true, .rect ⟨⟨0, 0⟩, ⟨100, 100⟩⟩ "", styleW⟩
      = (aabbOfPoints (rotated_rect_points_world ⟨⟨0, 0⟩, ⟨100, 100⟩⟩ 0)).expand 2 :=
  bounds_rect_family_full_stroke (fun _ => 0) _ ⟨⟨0, 0⟩, ⟨100, 100⟩⟩ rfl
    (Or.inl ⟨rfl, by norm_num, by norm_num⟩)

/-!
## C2: binding round-trip
-/

theorem clampF_eq_self {x lo hi : ℝ} (h1 : lo ≤ x) (h2 : x ≤ hi) :
    clampF x lo hi = x := by
  unfold clampF
  rw [if_neg (not_lt.mpr h1), if_neg (not_lt.mpr h2)]

theorem clampF_abs_le (x c : ℝ) (hc : 0 ≤ c) : |clampF x (-c) c| ≤ c := by
  unfold clampF
  split
  · rw [abs_neg, abs_of_nonneg hc]
  · split
    · rw [abs_of_nonneg hc]
    · next h1 h2 => rw [abs_le]; exact ⟨not_lt.mp h1, not_lt.mp h2⟩

theorem signumF_abs_mul_half (x : ℝ) : |signumF x * 0.5| = 0.5 := by
  unfold signumF
  split <;> rw [abs_mul] <;> norm_num

theorem signumF_signumF_mul_half (x : ℝ) : signumF (signumF x * 0.5) = signumF x := by
  unfold signumF
  split <;> split <;> first | rfl | (exfalso; linarith)

theorem signumF_mul_half_of_abs (x : ℝ) (h : |x| = 0.5) : signumF x * 0.5 = x := by
  rcases abs_eq (by norm_num : (0.5:ℝ) ≥ 0) |>.mp h with h' | h' <;>
    subst h' <;> unfold signumF <;> norm_num

theorem rotate_vec2_rotate_vec2_neg (v : Point) (θ : ℝ) :
    rotate_vec2 (rotate_vec2 v θ) (-θ) = v := by
  have hid := Real.sin_sq_add_cos_sq θ
  unfold rotate_vec2
  apply Point.ext_xy
  · simp only [Real.cos_neg, Real.sin_neg]
    ring_nf
    linear_combination v.x * hid
  · simp only [Real.cos_neg, Real.sin_neg]
    ring_nf
    linear_combination v.y * hid

theorem point_sub_add_cancel (c v : Point) : (c + v) - c = v := by
  apply Point.ext_xy <;> simp [Point.add_x, Point.add_y, Point.sub_x, Point.sub_y]

theorem rect_snap_round (nx ny : ℝ) (hnx : |nx| ≤ 0.5) (hny : |ny| ≤ 0.5)
    (bx by' : ℝ)
    (heq : (if 0.5 - |nx| < 0.5 - |ny| then (⟨signumF nx * 0.5, ny⟩ : Point)
      else ⟨nx, signumF ny * 0.5⟩) = ⟨bx, by'⟩) :
    ((|bx| = 0.5 ∧ |by'| ≤ 0.5) ∨ (|by'| = 0.5 ∧ |bx| ≤ 0.5)) ∧
    (if 0.5 - |bx| < 0.5 - |by'| then (⟨signumF bx * 0.5, by'⟩ : Point)
      else ⟨bx, signumF by' * 0.5⟩) = ⟨bx, by'⟩ := by
  by_cases h : (0.5 : ℝ) - |nx| < 0.5 - |ny|
  · rw [if_pos h, Point.mk.injEq] at heq
    obtain ⟨hbx, hby⟩ := heq
    subst hbx; subst hby
    have habs : |signumF nx * 0.5| = 0.5 := signumF_abs_mul_half nx
    refine ⟨Or.inl ⟨habs, hny⟩, ?_⟩
    by_cases h2 : (0.5 : ℝ) - |signumF nx * 0.5| < 0.5 - |ny|
    · rw [if_pos h2, Point.mk.injEq]
      exact ⟨by rw [signumF_signumF_mul_half], rfl⟩
    · rw [if_neg h2, Point.mk.injEq]
      refine ⟨rfl, signumF_mul_half_of_abs ny ?_⟩
      rw [habs] at h2
      have := not_lt.mp h2
      linarith [hny]
  · rw [if_neg h, Point.mk.injEq] at heq
    obtain ⟨hbx, hby⟩ := heq
    subst hbx; subst hby
    have habs : |signumF ny * 0.5| = 0.5 := signumF_abs_mul_half ny
    refine ⟨Or.inr ⟨habs, hnx⟩, ?_⟩
    have h2 : ¬((0.5 : ℝ) - |nx| < 0.5 - |signumF ny * 0.5|) := by
      rw [habs]
      intro hcon
      have : (0.5 : ℝ) < |nx| := by linarith
      linarith [hnx]
    rw [if_neg h2, Point.mk.injEq]
    exact ⟨rfl, by rw [signumF_signumF_mul_half]⟩

theorem sqrt_quarter : Real.sqrt 0.25 = 0.5 := by
  rw [show (0.25 : ℝ) = 0.5 ^ 2 by norm_num, Real.sqrt_sq (by norm_num)]

theorem ellipse_snap_round (nx ny : ℝ) (bx by' : ℝ)
    (heq : (if vecLength ⟨nx, ny⟩ ≤ f32Epsilon then (⟨0.5, 0⟩ : Point)
      else ⟨nx / vecLength ⟨nx, ny⟩ * 0.5, ny / vecLength ⟨nx, ny⟩ * 0.5⟩) = ⟨bx, by'⟩) :
    (bx ^ 2 + by' ^ 2 = 0.25) ∧ |bx| ≤ 0.5 ∧ |by'| ≤ 0.5 ∧
    (if vecLength ⟨bx, by'⟩ ≤ f32Epsilon then (⟨0.5, 0⟩ : Point)
      else ⟨bx / vecLength ⟨bx, by'⟩ * 0.5, by' / vecLength ⟨bx, by'⟩ * 0.5⟩) = ⟨bx, by'⟩ := by
  have heps : (0 : ℝ) < f32Epsilon := by unfold f32Epsilon; positivity
  have hepshalf : f32Epsilon < 0.5 := by unfold f32Epsilon; norm_num
  have hsq : bx ^ 2 + by' ^ 2 = 0.25 ∧ |bx| ≤ 0.5 ∧ |by'| ≤ 0.5 := by
    by_cases h : vecLength ⟨nx, ny⟩ ≤ f32Epsilon
    · rw [if_pos h, Point.mk.injEq] at heq
      obtain ⟨hbx, hby⟩ := heq
      subst hbx; subst hby
      norm_num [abs_of_nonneg]
    · rw [if_neg h, Point.mk.injEq] at heq
      obtain ⟨hbx, hby⟩ := heq
      subst hbx; subst hby
      have hn : 0 < vecLength ⟨nx, ny⟩ := lt_trans heps (not_le.mp h)
      have hnsq : vecLength ⟨nx, ny⟩ ^ 2 = nx * nx + ny * ny := by
        unfold vecLength
        exact Real.sq_sqrt (by nlinarith [sq_nonneg nx, sq_nonneg ny])
      have hnx' : |nx| ≤ vecLength ⟨nx, ny⟩ := by
        unfold vecLength
        rw [show nx * nx + ny * ny = nx ^ 2 + ny ^ 2 by ring]
        calc |nx| = Real.sqrt (nx ^ 2) := (Real.sqrt_sq_eq_abs nx).symm
          _ ≤ Real.sqrt (nx ^ 2 + ny ^ 2) := Real.sqrt_le_sqrt (by nlinarith)
      have hny' : |ny| ≤ vecLength ⟨nx, ny⟩ := by
        unfold vecLength
        rw [show nx * nx + ny * ny = nx ^ 2 + ny ^ 2 by ring]
        calc |ny| = Real.sqrt (ny ^ 2) := (Real.sqrt_sq_eq_abs ny).symm
          _ ≤ Real.sqrt (nx ^ 2 + ny ^ 2) := Real.sqrt_le_sqrt (by nlinarith)
      refine ⟨?_, ?_, ?_⟩
      · have hne : vecLength ⟨nx, ny⟩ ≠ 0 := ne_of_gt hn
        field_simp
        nlinarith [hnsq]
      · rw [abs_mul, abs_div, abs_of_pos hn, abs_of_nonneg (by norm_num : (0.5:ℝ) ≥ 0)]
        have hd : |nx| / vecLength ⟨nx, ny⟩ ≤ 1 := (div_le_one hn).mpr hnx'
        nlinarith [hd]
      · rw [abs_mul, abs_div, abs_of_pos hn, abs_of_nonneg (by norm_num : (0.5:ℝ) ≥ 0)]
        have hd : |ny| / vecLength ⟨nx, ny⟩ ≤ 1 := (div_le_one hn).mpr hny'
        nlinarith [hd]
  obtain ⟨h1, h2, h3⟩ := hsq
  refine ⟨h1, h2, h3, ?_⟩
  have hlen : vecLength ⟨bx, by'⟩ = 0.5 := by
    unfold vecLength
    rw [show bx * bx + by' * by' = bx ^ 2 + by' ^ 2 by ring, h1, sqrt_quarter]
  rw [hlen, if_neg (not_le.mpr hepshalf), Point.mk.injEq]
  constructor <;> rw [div_mul_cancel₀] <;> norm_num

theorem compute_binding_element_spec (e : Element) (r : RectF) (p : Point)
    (hrect : bindableRect e.kind = some r)
    (hx : f32Epsilon < r.size.x) (hy : f32Epsilon < r.size.y) :
    ∃ b : Binding,
      compute_binding_for_element e p = some b ∧
      b.element_id = e.id ∧
      (isRectFamily e.kind →
        (|b.norm.x| = 0.5 ∧ |b.norm.y| ≤ 0.5) ∨ (|b.norm.y| = 0.5 ∧ |b.norm.x| ≤ 0.5)) ∧
      (isEllipse e.kind → b.norm.x ^ 2 + b.norm.y ^ 2 = 0.25) ∧
      compute_binding_for_element e
        (r.center + rotate_vec2 ⟨b.norm.x * r.size.x, b.norm.y * r.size.y⟩ e.rotation)
        = some b := by
  have heps : (0 : ℝ) < f32Epsilon := by unfold f32Epsilon; positivity
  have hsx : r.size.x ≠ 0 := ne_of_gt (lt_trans heps hx)
  have hsy : r.size.y ≠ 0 := ne_of_gt (lt_trans heps hy)
  have hguard : ¬(r.size.x ≤ f32Epsilon ∨ r.size.y ≤ f32Epsilon) :=
    not_or.mpr ⟨not_le.mpr hx, not_le.mpr hy⟩
  -- abbreviations for the two normalization rounds
  have hclamp : ∀ q : Point,
      |clampF ((rotate_vec2 (q - r.center) (-e.rotation)).x / r.size.x) (-0.5) 0.5| ≤ 0.5 ∧
      |clampF ((rotate_vec2 (q - r.center) (-e.rotation)).y / r.size.y) (-0.5) 0.5| ≤ 0.5 :=
    fun q => ⟨clampF_abs_le _ 0.5 (by norm_num), clampF_abs_le _ 0.5 (by norm_num)⟩
  have hround : ∀ w : Point, (|w.x| ≤ 0.5) → (|w.y| ≤ 0.5) →
      (rotate_vec2 ((r.center + rotate_vec2 ⟨w.x * r.size.x, w.y * r.size.y⟩ e.rotation)
          - r.center) (-e.rotation)) = ⟨w.x * r.size.x, w.y * r.size.y⟩ := by
    intro w _ _
    rw [point_sub_add_cancel, rotate_vec2_rotate_vec2_neg]
  cases hk : e.kind with
  | rect rc label =>
    rw [hk] at hrect
    simp only [bindableRect, Option.some.injEq] at hrect
    subst hrect
    have hcompute : ∀ q : Point, compute_binding_for_element e q
        = (if 0.5 - |clampF ((rotate_vec2 (q - rc.center) (-e.rotation)).x / rc.size.x)
                  (-0.5) 0.5|
              < 0.5 - |clampF ((rotate_vec2 (q - rc.center) (-e.rotation)).y / rc.size.y)
                  (-0.5) 0.5|
           then some ⟨e.id, ⟨signumF (clampF ((rotate_vec2 (q - rc.center)
                  (-e.rotation)).x / rc.size.x) (-0.5) 0.5) * 0.5,
                clampF ((rotate_vec2 (q - rc.center) (-e.rotation)).y / rc.size.y)
                  (-0.5) 0.5⟩⟩
           else some ⟨e.id, ⟨clampF ((rotate_vec2 (q - rc.center)
                  (-e.rotation)).x / rc.size.x) (-0.5) 0.5,
                signumF (clampF ((rotate_vec2 (q - rc.center) (-e.rotation)).y / rc.size.y)
                  (-0.5) 0.5) * 0.5⟩⟩) := by
      intro q
      simp only [compute_binding_for_element, hk, bindableRect]
      rw [if_neg hguard]
    set nx := clampF ((rotate_vec2 (p - rc.center) (-e.rotation)).x / rc.size.x) (-0.5) 0.5
      with hnxd
    set ny := clampF ((rotate_vec2 (p - rc.center) (-e.rotation)).y / rc.size.y) (-0.5) 0.5
      with hnyd
    obtain ⟨hnxa, hnya⟩ := hclamp p
    set s : Point := if 0.5 - |nx| < 0.5 - |ny| then (⟨signumF nx * 0.5, ny⟩ : Point)
      else ⟨nx, signumF ny * 0.5⟩ with hsd
    obtain ⟨hbound, hsnap⟩ := rect_snap_round nx ny hnxa hnya s.x s.y (by rw [hsd])
    refine ⟨⟨e.id, s⟩, ?_, rfl, fun _ => hbound, fun hcon => by simp [isEllipse, hk] at hcon, ?_⟩
    · rw [hcompute p, hsd]
      split <;> rfl
    · rw [hcompute (rc.center + rotate_vec2 ⟨s.x * rc.size.x, s.y * rc.size.y⟩ e.rotation)]
      have hw := hround s (by rcases hbound with ⟨h1, h2⟩ | ⟨h1, h2⟩ <;>
        first | exact le_of_eq h1 | exact h2)
        (by rcases hbound with ⟨h1, h2⟩ | ⟨h1, h2⟩ <;> first | exact h2 | exact le_of_eq h1)
      rw [hw]
      have hcx : clampF ((Point.mk (s.x * rc.size.x) (s.y * rc.size.y)).x / rc.size.x)
          (-0.5) 0.5 = s.x := by
        show clampF (s.x * rc.size.x / rc.size.x) (-0.5) 0.5 = s.x
        rw [mul_div_cancel_right₀ _ hsx]
        have := abs_le.mp (by rcases hbound with ⟨h1, h2⟩ | ⟨h1, h2⟩ <;>
          first | exact le_of_eq h1 | exact h2)
        exact clampF_eq_self this.1 this.2
      have hcy : clampF ((Point.mk (s.x * rc.size.x) (s.y * rc.size.y)).y / rc.size.y)
          (-0.5) 0.5 = s.y := by
        show clampF (s.y * rc.size.y / rc.size.y) (-0.5) 0.5 = s.y
        rw [mul_div_cancel_right₀ _ hsy]
        have := abs_le.mp (by rcases hbound with ⟨h1, h2⟩ | ⟨h1, h2⟩ <;>
          first | exact h2 | exact le_of_eq h1)
        exact clampF_eq_self this.1 this.2
      rw [hcx, hcy]
      have := hsnap
      rcases ite_eq_iff.mp hsnap with ⟨hc, hres⟩ | ⟨hc, hres⟩
      · rw [if_pos hc, Option.some.injEq, Binding.mk.injEq]
        exact ⟨rfl, by rw [hres]⟩
      · rw [if_neg hc, Option.some.injEq, Binding.mk.injEq]
        exact ⟨rfl, by rw [hres]⟩
  | ellipse rc label =>
    rw [hk] at hrect
    simp only [bindableRect, Option.some.injEq] at hrect
    subst hrect
    have hcompute : ∀ q : Point, compute_binding_for_element e q
        = (let nx := clampF ((rotate_vec2 (q - rc.center) (-e.rotation)).x / rc.size.x)
             (-0.5) 0.5
           let ny := clampF ((rotate_vec2 (q - rc.center) (-e.rotation)).y / rc.size.y)
             (-0.5) 0.5
           if vecLength ⟨nx, ny⟩ ≤ f32Epsilon then some ⟨e.id, ⟨0.5, 0⟩⟩
           else some ⟨e.id, ⟨nx / vecLength ⟨nx, ny⟩ * 0.5,
             ny / vecLength ⟨nx, ny⟩ * 0.5⟩⟩) := by
      intro q
      simp only [compute_binding_for_element, hk, bindableRect]
      rw [if_neg hguard]
    set nx := clampF ((rotate_vec2 (p - rc.center) (-e.rotation)).x / rc.size.x) (-0.5) 0.5
      with hnxd
    set ny := clampF ((rotate_vec2 (p - rc.center) (-e.rotation)).y / rc.size.y) (-0.5) 0.5
      with hnyd
    set s : Point := if vecLength ⟨nx, ny⟩ ≤ f32Epsilon then (⟨0.5, 0⟩ : Point)
      else ⟨nx / vecLength ⟨nx, ny⟩ * 0.5, ny / vecLength ⟨nx, ny⟩ * 0.5⟩ with hsd
    obtain ⟨hsq, hbx, hby, hsnap⟩ := ellipse_snap_round nx ny s.x s.y
      (by rw [hsd])
    refine ⟨⟨e.id, s⟩, ?_, rfl, fun hcon => by simp [isRectFamily, hk] at hcon,
      fun _ => hsq, ?_⟩
    · have hcp : compute_binding_for_element e p
          = (if vecLength ⟨nx, ny⟩ ≤ f32Epsilon then some ⟨e.id, (⟨0.5, 0⟩ : Point)⟩
             else some ⟨e.id, ⟨nx / vecLength ⟨nx, ny⟩ * 0.5,
               ny / vecLength ⟨nx, ny⟩ * 0.5⟩⟩) := hcompute p
      rw [hcp, hsd]
      split <;> rfl
    · rw [hcompute (rc.center + rotate_vec2 ⟨s.x * rc.size.x, s.y * rc.size.y⟩ e.rotation)]
      have hw := hround s hbx hby
      rw [hw]
      have hcx : clampF ((Point.mk (s.x * rc.size.x) (s.y * rc.size.y)).x / rc.size.x)
          (-0.5) 0.5 = s.x := by
        show clampF (s.x * rc.size.x / rc.size.x) (-0.5) 0.5 = s.x
        rw [mul_div_cancel_right₀ _ hsx]
        have := abs_le.mp hbx
        exact clampF_eq_self this.1 this.2
      have hcy : clampF ((Point.mk (s.x * rc.size.x) (s.y * rc.size.y)).y / rc.size.y)
          (-0.5) 0.5 = s.y := by
        show clampF (s.y * rc.size.y / rc.size.y) (-0.5) 0.5 = s.y
        rw [mul_div_cancel_right₀ _ hsy]
        have := abs_le.mp hby
        exact clampF_eq_self this.1 this.2
      rw [hcx, hcy]
      rcases ite_eq_iff.mp hsnap with ⟨hc, hres⟩ | ⟨hc, hres⟩
      · rw [if_pos hc, Option.some.injEq, Binding.mk.injEq]
        exact ⟨rfl, by rw [hres]⟩
      · rw [if_neg hc, Option.some.injEq, Binding.mk.injEq]
        exact ⟨rfl, by rw [hres]⟩
  | line a b arrow ast sb eb => rw [hk] at hrect; simp [bindableRect] at hrect
  | polyline pts ast => rw [hk] at hrect; simp [bindableRect] at hrect
  | pen pts => rw [hk] at hrect; simp [bindableRect] at hrect
  | text pos t => rw [hk] at hrect; simp [bindableRect] at hrect
  | triangle rc label ar =>
    rw [hk] at hrect
    simp only [bindableRect, Option.some.injEq] at hrect
    subst hrect
    have hcompute : ∀ q : Point, compute_binding_for_element e q
        = (if 0.5 - |clampF ((rotate_vec2 (q - rc.center) (-e.rotation)).x / rc.size.x)
                  (-0.5) 0.5|
              < 0.5 - |clampF ((rotate_vec2 (q - rc.center) (-e.rotation)).y / rc.size.y)
                  (-0.5) 0.5|
           then some ⟨e.id, ⟨signumF (clampF ((rotate_vec2 (q - rc.center)
                  (-e.rotation)).x / rc.size.x) (-0.5) 0.5) * 0.5,
                clampF ((rotate_vec2 (q - rc.center) (-e.rotation)).y / rc.size.y)
                  (-0.5) 0.5⟩⟩
           else some ⟨e.id, ⟨clampF ((rotate_vec2 (q - rc.center)
                  (-e.rotation)).x / rc.size.x) (-0.5) 0.5,
                signumF (clampF ((rotate_vec2 (q - rc.center) (-e.rotation)).y / rc.size.y)
                  (-0.5) 0.5) * 0.5⟩⟩) := by
      intro q
      simp only [compute_binding_for_element, hk, bindableRect]
      rw [if_neg hguard]
    set nx := clampF ((rotate_vec2 (p - rc.center) (-e.rotation)).x / rc.size.x) (-0.5) 0.5
      with hnxd
    set ny := clampF ((rotate_vec2 (p - rc.center) (-e.rotation)).y / rc.size.y) (-0.5) 0.5
      with hnyd
    obtain ⟨hnxa, hnya⟩ := hclamp p
    set s : Point := if 0.5 - |nx| < 0.5 - |ny| then (⟨signumF nx * 0.5, ny⟩ : Point)
      else ⟨nx, signumF ny * 0.5⟩ with hsd
    obtain ⟨hbound, hsnap⟩ := rect_snap_round nx ny hnxa hnya s.x s.y (by rw [hsd])
    refine ⟨⟨e.id, s⟩, ?_, rfl, fun _ => hbound, fun hcon => by simp [isEllipse, hk] at hcon, ?_⟩
    · rw [hcompute p, hsd]
      split <;> rfl
    · rw [hcompute (rc.center + rotate_vec2 ⟨s.x * rc.size.x, s.y * rc.size.y⟩ e.rotation)]
      have hw := hround s (by rcases hbound with ⟨h1, h2⟩ | ⟨h1, h2⟩ <;>
        first | exact le_of_eq h1 | exact h2)
        (by rcases hbound with ⟨h1, h2⟩ | ⟨h1, h2⟩ <;> first | exact h2 | exact le_of_eq h1)
      rw [hw]
      have hcx : clampF ((Point.mk (s.x * rc.size.x) (s.y * rc.size.y)).x / rc.size.x)
          (-0.5) 0.5 = s.x := by
        show clampF (s.x * rc.size.x / rc.size.x) (-0.5) 0.5 = s.x
        rw [mul_div_cancel_right₀ _ hsx]
        have := abs_le.mp (by rcases hbound with ⟨h1, h2⟩ | ⟨h1, h2⟩ <;>
          first | exact le_of_eq h1 | exact h2)
        exact clampF_eq_self this.1 this.2
      have hcy : clampF ((Point.mk (s.x * rc.size.x) (s.y * rc.size.y)).y / rc.size.y)
          (-0.5) 0.5 = s.y := by
        show clampF (s.y * rc.size.y / rc.size.y) (-0.5) 0.5 = s.y
        rw [mul_div_cancel_right₀ _ hsy]
        have := abs_le.mp (by rcases hbound with ⟨h1, h2⟩ | ⟨h1, h2⟩ <;>
          first | exact h2 | exact le_of_eq h1)
        exact clampF_eq_self this.1 this.2
      rw [hcx, hcy]
      rcases ite_eq_iff.mp hsnap with ⟨hc, hres⟩ | ⟨hc, hres⟩
      · rw [if_pos hc, Option.some.injEq, Binding.mk.injEq]
        exact ⟨rfl, by rw [hres]⟩
      · rw [if_neg hc, Option.some.injEq, Binding.mk.injEq]
        exact ⟨rfl, by rw [hres]⟩
  | parallelogram rc label sr =>
    rw [hk] at hrect
    simp only [bindableRect, Option.some.injEq] at hrect
    subst hrect
    have hcompute : ∀ q : Point, compute_binding_for_element e q
        = (if 0.5 - |clampF ((rotate_vec2 (q - rc.center) (-e.rotation)).x / rc.size.x)
                  (-0.5) 0.5|
              < 0.5 - |clampF ((rotate_vec2 (q - rc.center) (-e.rotation)).y / rc.size.y)
                  (-0.5) 0.5|
           then some ⟨e.id, ⟨signumF (clampF ((rotate_vec2 (q - rc.center)
                  (-e.rotation)).x / rc.size.x) (-0.5) 0.5) * 0.5,
                clampF ((rotate_vec2 (q - rc.center) (-e.rotation)).y / rc.size.y)
                  (-0.5) 0.5⟩⟩
           else some ⟨e.id, ⟨clampF ((rotate_vec2 (q - rc.center)
                  (-e.rotation)).x / rc.size.x) (-0.5) 0.5,
                signumF (clampF ((rotate_vec2 (q - rc.center) (-e.rotation)).y / rc.size.y)
                  (-0.5) 0.5) * 0.5⟩⟩) := by
      intro q
      simp only [compute_binding_for_element, hk, bindableRect]
      rw [if_neg hguard]
    set nx := clampF ((rotate_vec2 (p - rc.center) (-e.rotation)).x / rc.size.x) (-0.5) 0.5
      with hnxd
    set ny := clampF ((rotate_vec2 (p - rc.center) (-e.rotation)).y / rc.size.y) (-0.5) 0.5
      with hnyd
    obtain ⟨hnxa, hnya⟩ := hclamp p
    set s : Point := if 0.5 - |nx| < 0.5 - |ny| then (⟨signumF nx * 0.5, ny⟩ : Point)
      else ⟨nx, signumF ny * 0.5⟩ with hsd
    obtain ⟨hbound, hsnap⟩ := rect_snap_round nx ny hnxa hnya s.x s.y (by rw [hsd])
    refine ⟨⟨e.id, s⟩, ?_, rfl, fun _ => hbound, fun hcon => by simp [isEllipse, hk] at hcon, ?_⟩
    · rw [hcompute p, hsd]
      split <;> rfl
    · rw [hcompute (rc.center + rotate_vec2 ⟨s.x * rc.size.x, s.y * rc.size.y⟩ e.rotation)]
      have hw := hround s (by rcases hbound with ⟨h1, h2⟩ | ⟨h1, h2⟩ <;>
        first | exact le_of_eq h1 | exact h2)
        (by rcases hbound with ⟨h1, h2⟩ | ⟨h1, h2⟩ <;> first | exact h2 | exact le_of_eq h1)
      rw [hw]
      have hcx : clampF ((Point.mk (s.x * rc.size.x) (s.y * rc.size.y)).x / rc.size.x)
          (-0.5) 0.5 = s.x := by
        show clampF (s.x * rc.size.x / rc.size.x) (-0.5) 0.5 = s.x
        rw [mul_div_cancel_right₀ _ hsx]
        have := abs_le.mp (by rcases hbound with ⟨h1, h2⟩ | ⟨h1, h2⟩ <;>
          first | exact le_of_eq h1 | exact h2)
        exact clampF_eq_self this.1 this.2
      have hcy : clampF ((Point.mk (s.x * rc.size.x) (s.y * rc.size.y)).y / rc.size.y)
          (-0.5) 0.5 = s.y := by
        show clampF (s.y * rc.size.y / rc.size.y) (-0.5) 0.5 = s.y
        rw [mul_div_cancel_right₀ _ hsy]
        have := abs_le.mp (by rcases hbound with ⟨h1, h2⟩ | ⟨h1, h2⟩ <;>
          first | exact h2 | exact le_of_eq h1)
        exact clampF_eq_self this.1 this.2
      rw [hcx, hcy]
      rcases ite_eq_iff.mp hsnap with ⟨hc, hres⟩ | ⟨hc, hres⟩
      · rw [if_pos hc, Option.some.injEq, Binding.mk.injEq]
        exact ⟨rfl, by rw [hres]⟩
      · rw [if_neg hc, Option.some.injEq, Binding.mk.injEq]
        exact ⟨rfl, by rw [hres]⟩
  | trapezoid rc label tr =>
    rw [hk] at hrect
    simp only [bindableRect, Option.some.injEq] at hrect
    subst hrect
    have hcompute : ∀ q : Point, compute_binding_for_element e q
        = (if 0.5 - |clampF ((rotate_vec2 (q - rc.center) (-e.rotation)).x / rc.size.x)
                  (-0.5) 0.5|
              < 0.5 - |clampF ((rotate_vec2 (q - rc.center) (-e.rotation)).y / rc.size.y)
                  (-0.5) 0.5|
           then some ⟨e.id, ⟨signumF (clampF ((rotate_vec2 (q - rc.center)
                  (-e.rotation)).x / rc.size.x) (-0.5) 0.5) * 0.5,
                clampF ((rotate_vec2 (q - rc.center) (-e.rotation)).y / rc.size.y)
                  (-0.5) 0.5⟩⟩
           else some ⟨e.id, ⟨clampF ((rotate_vec2 (q - rc.center)
                  (-e.rotation)).x / rc.size.x) (-0.5) 0.5,
                signumF (clampF ((rotate_vec2 (q - rc.center) (-e.rotation)).y / rc.size.y)
                  (-0.5) 0.5) * 0.5⟩⟩) := by
      intro q
      simp only [compute_binding_for_element, hk, bindableRect]
      rw [if_neg hguard]
    set nx := clampF ((rotate_vec2 (p - rc.center) (-e.rotation)).x / rc.size.x) (-0.5) 0.5
      with hnxd
    set ny := clampF ((rotate_vec2 (p - rc.center) (-e.rotation)).y / rc.size.y) (-0.5) 0.5
      with hnyd
    obtain ⟨hnxa, hnya⟩ := hclamp p
    set s : Point := if 0.5 - |nx| < 0.5 - |ny| then (⟨signumF nx * 0.5, ny⟩ : Point)
      else ⟨nx, signumF ny * 0.5⟩ with hsd
    obtain ⟨hbound, hsnap⟩ := rect_snap_round nx ny hnxa hnya s.x s.y (by rw [hsd])
    refine ⟨⟨e.id, s⟩, ?_, rfl, fun _ => hbound, fun hcon => by simp [isEllipse, hk] at hcon, ?_⟩
    · rw [hcompute p, hsd]
      split <;> rfl
    · rw [hcompute (rc.center + rotate_vec2 ⟨s.x * rc.size.x, s.y * rc.size.y⟩ e.rotation)]
      have hw := hround s (by rcases hbound with ⟨h1, h2⟩ | ⟨h1, h2⟩ <;>
        first | exact le_of_eq h1 | exact h2)
        (by rcases hbound with ⟨h1, h2⟩ | ⟨h1, h2⟩ <;> first | exact h2 | exact le_of_eq h1)
      rw [hw]
      have hcx : clampF ((Point.mk (s.x * rc.size.x) (s.y * rc.size.y)).x / rc.size.x)
          (-0.5) 0.5 = s.x := by
        show clampF (s.x * rc.size.x / rc.size.x) (-0.5) 0.5 = s.x
        rw [mul_div_cancel_right₀ _ hsx]
        have := abs_le.mp (by rcases hbound with ⟨h1, h2⟩ | ⟨h1, h2⟩ <;>
          first | exact le_of_eq h1 | exact h2)
        exact clampF_eq_self this.1 this.2
      have hcy : clampF ((Point.mk (s.x * rc.size.x) (s.y * rc.size.y)).y / rc.size.y)
          (-0.5) 0.5 = s.y := by
        show clampF (s.y * rc.size.y / rc.size.y) (-0.5) 0.5 = s.y
        rw [mul_div_cancel_right₀ _ hsy]
        have := abs_le.mp (by rcases hbound with ⟨h1, h2⟩ | ⟨h1, h2⟩ <;>
          first | exact h2 | exact le_of_eq h1)
        exact clampF_eq_self this.1 this.2
      rw [hcx, hcy]
      rcases ite_eq_iff.mp hsnap with ⟨hc, hres⟩ | ⟨hc, hres⟩
      · rw [if_pos hc, Option.some.injEq, Binding.mk.injEq]
        exact ⟨rfl, by rw [hres]⟩
      · rw [if_neg hc, Option.some.injEq, Binding.mk.injEq]
        exact ⟨rfl, by rw [hres]⟩

/-- C2 (amended): for every bindable element found by id whose rect has width
and height strictly greater than `f32::EPSILON` (the code's degeneracy
guard), and every world point `p`: `compute_binding_for_target` returns a
binding `b`, `resolve_binding_point` resolves it to a point on the element's
boundary — for rect-family kinds one coordinate of `b.norm` is ±0.5 and the
other lies in `[-0.5, 0.5]`; for an ellipse `‖b.norm‖ = 0.5` exactly — and
recomputing the binding at the resolved point returns the same binding `b`
(hence resolving again yields the same point). -/
theorem binding_round_trip (doc : Document) (tid : ℕ) (p : Point) (e : Element) (r : RectF)
    (hfind : doc.elements.find? (fun el => el.id = tid) = some e)
    (hrect : bindableRect e.kind = some r)
    (hx : f32Epsilon < r.size.x) (hy : f32Epsilon < r.size.y) :
    ∃ b pt,
      compute_binding_for_target doc tid p = some b ∧
      resolve_binding_point doc b = some pt ∧
      (isRectFamily e.kind →
        (|b.norm.x| = 0.5 ∧ |b.norm.y| ≤ 0.5) ∨ (|b.norm.y| = 0.5 ∧ |b.norm.x| ≤ 0.5)) ∧
      (isEllipse e.kind → b.norm.x ^ 2 + b.norm.y ^ 2 = 0.25) ∧
      compute_binding_for_target doc tid pt = some b := by
  obtain ⟨b, hcb, hbid, hrf, hell, hidem⟩ := compute_binding_element_spec e r p hrect hx hy
  have hid : e.id = tid := by simpa using List.find?_some hfind
  refine ⟨b, r.center + rotate_vec2 ⟨b.norm.x * r.size.x, b.norm.y * r.size.y⟩ e.rotation,
    ?_, ?_, hrf, hell, ?_⟩
  · unfold compute_binding_for_target
    rw [hfind, Option.some_bind, hcb]
  · unfold resolve_binding_point
    simp only [hbid, hid]
    rw [hfind, Option.some_bind, hrect]
  · unfold compute_binding_for_target
    rw [hfind, Option.some_bind, hidem]

/-- C2 counterexample: a Rect whose width is 2⁻²⁴ — strictly positive, but
at most `f32::EPSILON` — yields no binding at all: the claim's "strictly
positive width and height" precondition is not enough, the code requires
both to exceed `f32::EPSILON`. -/
theorem binding_positive_size_counterexample :
    (0 : ℝ) < (RectF.size ⟨⟨0, 0⟩, ⟨1 / 2 ^ 24, 100⟩⟩).x ∧
    (0 : ℝ) < (RectF.size ⟨⟨0, 0⟩, ⟨1 / 2 ^ 24, 100⟩⟩).y ∧
    compute_binding_for_target
      ⟨[⟨1, none, 0, true, .rect ⟨⟨0, 0⟩, ⟨1 / 2 ^ 24, 100⟩⟩ "", styleW⟩], []⟩ 1 ⟨0, 0⟩
      = none := by
  refine ⟨by norm_num [RectF.size], by norm_num [RectF.size], ?_⟩
  have hfind : (Document.mk [⟨1, none, 0, true, .rect ⟨⟨0, 0⟩, ⟨1 / 2 ^ 24, 100⟩⟩ "", styleW⟩]
      []).elements.find? (fun el => el.id = 1)
      = some ⟨1, none, 0, true, .rect ⟨⟨0, 0⟩, ⟨1 / 2 ^ 24, 100⟩⟩ "", styleW⟩ := by
    simp [List.find?]
  unfold compute_binding_for_target
  rw [hfind, Option.some_bind]
  simp only [compute_binding_for_element, bindableRect]
  rw [if_pos]
  left
  show (1 : ℝ) / 2 ^ 24 - 0 ≤ f32Epsilon
  unfold f32Epsilon
  norm_num

/-- Witness for C2's amended theorem: a 100×100 Rect at the origin, probed
from the point (50, −10) just above its top edge. -/
theorem binding_round_trip_witness :
    ∃ b pt,
      compute_binding_for_target
        ⟨[⟨1, none, 0, true, .rect ⟨⟨0, 0⟩, ⟨100, 100⟩⟩ "", styleW⟩], []⟩ 1 ⟨50, -10⟩
        = some b ∧
      resolve_binding_point
        ⟨[⟨1, none, 0, true, .rect ⟨⟨0, 0⟩, ⟨100, 100⟩⟩ "", styleW⟩], []⟩ b = some pt ∧
      (isRectFamily (ElementKind.rect ⟨⟨0, 0⟩, ⟨100, 100⟩⟩ "") →
        (|b.norm.x| = 0.5 ∧ |b.norm.y| ≤ 0.5) ∨ (|b.norm.y| = 0.5 ∧ |b.norm.x| ≤ 0.5)) ∧
      (isEllipse (ElementKind.rect ⟨⟨0, 0⟩, ⟨100, 100⟩⟩ "") →
        b.norm.x ^ 2 + b.norm.y ^ 2 = 0.25) ∧
      compute_binding_for_target
        ⟨[⟨1, none, 0, true, .rect ⟨⟨0, 0⟩, ⟨100, 100⟩⟩ "", styleW⟩], []⟩ 1 pt = some b :=
  binding_round_trip
    ⟨[⟨1, none, 0, true, .rect ⟨⟨0, 0⟩, ⟨100, 100⟩⟩ "", styleW⟩], []⟩ 1 ⟨50, -10⟩
    ⟨1, none, 0, true, .rect ⟨⟨0, 0⟩, ⟨100, 100⟩⟩ "", styleW⟩ ⟨⟨0, 0⟩, ⟨100, 100⟩⟩
    (by simp [List.find?]) rfl
    (by unfold f32Epsilon; norm_num [RectF.size])
    (by unfold f32Epsilon; norm_num [RectF.size])

/-!
## Editor state (src/app/mod.rs) and history (src/app/actions.rs)
-/

/-- `InProgress` (mod.rs): an in-progress drawing gesture. -/
inductive InProgress where
  | dragShape (start current : Point)
  | dragLine (start current : Point) (arrow_style : ArrowStyle)
  | polyline (points : List Point) (current : Point) (arrow_style : ArrowStyle)
  | pen (points : List Point)
  | selectBox (start current : Point)

/-- `ResizeHandle` (mod.rs). -/
inductive ResizeHandle where
  | nw | n | ne | w | e | sw | s | se
deriving DecidableEq

/-- `LineEndpoint` (mod.rs): which endpoint of a line (`Start`/`End`). -/
inductive LineEndpoint where
  | startPoint
  | endPoint
deriving DecidableEq

/-- `ShapeAdjustKind` (mod.rs). -/
inductive ShapeAdjustKind where
  | triangleApex
  | parallelogramSkew
  | trapezoidTopInset
deriving DecidableEq

/-- `ActiveTransform` (mod.rs): the transform-interaction state machine's
non-idle states. -/
inductive ActiveTransform where
  | resize (element_id : ℕ) (handle : ResizeHandle) (start_rect : RectF)
      (start_rotation : ℝ) (start_pointer_world : Point)
  | rotateT (element_id : ℕ) (start_rotation start_angle : ℝ)
  | lineEndpoint (element_id : ℕ) (endpoint : LineEndpoint)
      (start_a start_b start_pointer_world : Point)
  | shapeAdjust (element_id : ℕ) (kind : ShapeAdjustKind)

/-- `Snapshot` (mod.rs): the state captured for undo/redo.  The source
stores `selected` as a `Vec<u64>` collected from the selection `HashSet`
and collects it back on restore; the model keeps the set itself. -/
structure Snapshot where
  doc : Document
  selected : Finset ℕ
  next_id : ℕ
  next_group_id : ℕ
  style : Style

/-- `ClipboardPayload` (mod.rs). -/
structure ClipboardPayload where
  elements : List Element
  groups : List GroupRec

/-- The fields of `DiagramApp` (mod.rs) that the verified operations touch.
Purely presentational fields (tool, view, file paths, fonts, themes, command
palette, ...) are omitted: none of the modelled operations reads or writes
them. -/
structure AppState where
  doc : Document
  selected : Finset ℕ
  next_id : ℕ
  next_group_id : ℕ
  style : Style
  in_progress : Option InProgress
  active_transform : Option ActiveTransform
  editing_text_id : Option ℕ
  status : Option String
  history : List Snapshot
  future : List Snapshot
  clipboard : Option ClipboardPayload
  context_world_pos : Option Point
  last_pointer_world : Option Point

/-- `DiagramApp::snapshot` (actions.rs, lines 66–74). -/
def snapshot (s : AppState) : Snapshot :=
  ⟨s.doc, s.selected, s.next_id, s.next_group_id, s.style⟩

/-- `DiagramApp::restore` (actions.rs, lines 102–111): install the snapshot's
doc/selection/allocators/style and reset `in_progress`, `editing_text_id`
and `status` to `None`.  (`active_transform` is not touched by the source.) -/
def restore (s : AppState) (snap : Snapshot) : AppState :=
  { s with
    doc := snap.doc
    selected := snap.selected
    next_id := snap.next_id
    next_group_id := snap.next_group_id
    style := snap.style
    in_progress := none
    editing_text_id := none
    status := none }

/-- `DiagramApp::push_undo` (actions.rs, lines 113–121): append a snapshot,
truncate the history to its most recent 200 entries (drop oldest), clear the
redo stack. -/
def push_undo (s : AppState) : AppState :=
  let h := s.history ++ [snapshot s]
  { s with history := if h.length > 200 then h.drop (h.length - 200) else h, future := [] }

/-- `DiagramApp::undo` (actions.rs, lines 123–130): no-op on empty history;
else pop the last snapshot, push the current state onto `future`, restore. -/
def undo (s : AppState) : AppState :=
  match s.history.getLast? with
  | none => s
  | some prev =>
    restore { s with history := s.history.dropLast, future := s.future ++ [snapshot s] } prev

/-- `DiagramApp::redo` (actions.rs, lines 132–139): the mirror of `undo`. -/
def redo (s : AppState) : AppState :=
  match s.future.getLast? with
  | none => s
  | some next =>
    restore { s with future := s.future.dropLast, history := s.history ++ [snapshot s] } next

/-!
## Selection and grouping (src/app/actions.rs, lines 141–301)
-/

/-- `DiagramApp::group_of` (actions.rs): the immediate group of an element. -/
def group_of (doc : Document) (id : ℕ) : Option ℕ :=
  (doc.elements.find? (fun e => e.id = id)).bind (·.group_id)

/-- `DiagramApp::group_parent` (actions.rs): the parent of a group record. -/
def group_parent (doc : Document) (group_id : ℕ) : Option ℕ :=
  (doc.groups.find? (fun g => g.id = group_id)).bind (·.parent_id)

/-- The bounded parent walk of `DiagramApp::group_root` (actions.rs, lines
178–186), with the hop count explicit: `iterParent doc k g` follows
`parent_id` for at most `k` hops, stopping early at a parentless group. -/
def iterParent (doc : Document) : ℕ → ℕ → ℕ
  | 0, g => g
  | k + 1, g =>
    match group_parent doc g with
    | none => g
    | some p => iterParent doc k p

/-- `DiagramApp::group_root` (actions.rs): the parent walk bounded to 256
hops (cycle-safety guard). -/
def group_root (doc : Document) (g : ℕ) : ℕ := iterParent doc 256 g

/-- `DiagramApp::root_group_of_element` (actions.rs). -/
def root_group_of_element (doc : Document) (element_id : ℕ) : Option ℕ :=
  (group_of doc element_id).map (group_root doc)

/-- The ids of groups whose `parent_id` is `Some g` — the children pushed by
one iteration of the `group_descendants_inclusive` stack loop. -/
def groupChildren (groups : List GroupRec) (g : ℕ) : List ℕ :=
  (groups.filter (fun gr => gr.parent_id = some g)).map (·.id)

/-- The stack loop of `DiagramApp::group_descendants_inclusive` (actions.rs,
lines 192–208).  The source's loop terminates whenever the group records
form a forest (each record is pushed at most once); the model makes that
termination explicit with a fuel argument large enough for any forest. -/
def group_descendants_loop (groups : List GroupRec) :
    ℕ → List ℕ → List ℕ → List ℕ
  | 0, _, out => out
  | _ + 1, [], out => out
  | fuel + 1, g :: rest, out =>
    group_descendants_loop groups fuel ((groupChildren groups g).reverse ++ rest) (out ++ [g])

/-- `DiagramApp::group_descendants_inclusive` (actions.rs): the group and all
its transitive sub-groups. -/
def group_descendants_inclusive (doc : Document) (group_id : ℕ) : List ℕ :=
  group_descendants_loop doc.groups
    ((doc.groups.length + 1) * (doc.groups.length + 1)) [group_id] []

/-- `DiagramApp::group_members_recursive` (actions.rs, lines 210–217): the
ids of all elements whose immediate group lies in the subtree. -/
def group_members_recursive (doc : Document) (group_id : ℕ) : List ℕ :=
  let gs := group_descendants_inclusive doc group_id
  doc.elements.filterMap fun e =>
    match e.group_id with
    | some g => if g ∈ gs then some e.id else none
    | none => none

/-- `DiagramApp::clear_selection` (actions.rs). -/
def clear_selection (s : AppState) : AppState :=
  { s with selected := ∅, editing_text_id := none }

/-- `DiagramApp::set_selection_single` (actions.rs, lines 268–278): clear,
then select either the full recursive membership of the element's root group
or just the element itself. -/
def set_selection_single (s : AppState) (id : ℕ) : AppState :=
  match root_group_of_element s.doc id with
  | some root =>
    { s with
      selected := (group_members_recursive s.doc root).toFinset
      editing_text_id := none }
  | none => { s with selected := {id}, editing_text_id := none }

/-!
## Structural passes and mutation operations (src/app/actions.rs)
-/

/-- `DiagramApp::ensure_group_exists` (actions.rs, lines 161–169): append a
parentless stub record when the group id has no record yet. -/
def ensure_group_exists (doc : Document) (group_id : ℕ) : Document :=
  if doc.groups.any (fun g => g.id = group_id) then doc
  else { doc with groups := doc.groups ++ [⟨group_id, none⟩] }

/-- The `iter_mut().find(...)` update of `DiagramApp::set_group_parent`:
reparent the first record with the given id. -/
def setParentFirst : List GroupRec → ℕ → Option ℕ → List GroupRec
  | [], _, _ => []
  | g :: rest, gid, pid =>
    if g.id = gid then { g with parent_id := pid } :: rest
    else g :: setParentFirst rest gid pid

/-- `DiagramApp::set_group_parent` (actions.rs, lines 171–176). -/
def set_group_parent (doc : Document) (group_id : ℕ) (parent_id : Option ℕ) : Document :=
  let d := ensure_group_exists doc group_id
  { d with groups := setParentFirst d.groups group_id parent_id }

/-- One round of the ancestor-closure loop of `normalize_groups`: the parents
of every currently used group id. -/
def parentsOf (doc : Document) (used : Finset ℕ) : Finset ℕ :=
  used.biUnion fun g =>
    match group_parent doc g with
    | some p => {p}
    | none => ∅

/-- The ancestor-closure stack loop of `normalize_groups` (actions.rs, lines
232–239), as a bounded monotone iteration: after `doc.groups.length + 1`
rounds the used-set is closed under `group_parent` (each productive round
adds at least one of the finitely many recorded parents). -/
def closeParents (doc : Document) : ℕ → Finset ℕ → Finset ℕ
  | 0, used => used
  | k + 1, used => closeParents doc k (used ∪ parentsOf doc used)

/-- `DiagramApp::normalize_groups` (actions.rs, lines 219–252): collect every
referenced group id (element `group_id`s, record ids, recorded parents),
close under ancestry, add stub records for missing ids (the source iterates
its `HashSet` in unspecified order; the model appends stubs in ascending
order), retain only used records, and clear dangling `parent_id`s. -/
def normalize_groups (s : AppState) : AppState :=
  let used0 : Finset ℕ :=
    (s.doc.elements.filterMap (·.group_id)).toFinset ∪
      (s.doc.groups.map (·.id)).toFinset ∪
      (s.doc.groups.filterMap (·.parent_id)).toFinset
  let used := closeParents s.doc (s.doc.groups.length + 1) used0
  let d1 := (used.sort (· ≤ ·)).foldl ensure_group_exists s.doc
  let d2 := { d1 with groups := d1.groups.filter (fun g => g.id ∈ used) }
  let ids := (d2.groups.map (·.id)).toFinset
  let d3 := { d2 with groups := d2.groups.map fun g =>
    match g.parent_id with
    | some pid => if pid ∈ ids then g else { g with parent_id := none }
    | none => g }
  { s with doc := d3 }

/-- The per-line fixup of `DiagramApp::delete_selected` (actions.rs, lines
311–341): a surviving line whose binding targets a deleted element gets that
endpoint frozen at its last resolved world position and the binding
cleared.  Both resolutions use the pre-delete document and the line's
original endpoints/bindings, as in the source. -/
def delete_fix_line (before : Document) (sel : Finset ℕ) (e : Element) : Element :=
  match e.kind with
  | .line a b arrow ast sb eb =>
    let hitS : Bool := sb.any fun bind => decide (bind.element_id ∈ sel)
    let hitE : Bool := eb.any fun bind => decide (bind.element_id ∈ sel)
    let resolved := resolved_line_endpoints_world before a b sb eb
    let k := ElementKind.line (if hitS then resolved.1 else a)
      (if hitE then resolved.2 else b) arrow ast
      (if hitS then none else sb) (if hitE then none else eb)
    { e with kind := k }
  | _ => e

/-- `DiagramApp::delete_selected` (actions.rs, lines 303–344): no-op on an
empty selection; else push an undo snapshot, drop the selected elements, fix
surviving lines bound to deleted targets, clear the selection, and normalize
groups. -/
def delete_selected (s : AppState) : AppState :=
  if s.selected = ∅ then s
  else
    let s1 := push_undo s
    let before := s1.doc
    let kept := s1.doc.elements.filter fun e => decide (e.id ∉ s1.selected)
    let fixed := kept.map (delete_fix_line before s1.selected)
    normalize_groups (clear_selection { s1 with doc := { s1.doc with elements := fixed } })

/-- `DiagramApp::duplicate_selected` (actions.rs, lines 651–674): no-op on an
empty selection; else push an undo snapshot, clone each selected element in
document order with a fresh sequential id, cleared group membership and a
(12, 12) offset, append the clones, and select them. -/
def duplicate_selected (s : AppState) : AppState :=
  if s.selected = ∅ then s
  else
    let s1 := push_undo s
    let step := s1.doc.elements.foldl
      (fun (acc : List Element × ℕ) e =>
        if e.id ∈ s1.selected then
          (acc.1 ++ [translate_element { e with id := acc.2, group_id := none } ⟨12, 12⟩],
            acc.2 + 1)
        else acc)
      ([], s1.next_id)
    { s1 with
      doc := { s1.doc with elements := s1.doc.elements ++ step.1 }
      next_id := step.2
      selected := (step.1.map (·.id)).toFinset
      editing_text_id := none }

/-!
## Paste (src/app/actions.rs, lines 714–786)
-/

/-- Association-list lookup standing in for `HashMap::get`. -/
def lookupA (m : List (ℕ × ℕ)) (k : ℕ) : Option ℕ :=
  (m.find? (fun p => p.1 = k)).map (·.2)

/-- The group-id map of `paste_from_payload` (lines 719–726):
`entry(g.id).or_insert_with(|| fresh)` over the payload's groups in order —
the first occurrence of an id wins, and `next_group_id` advances once per
distinct id.  Returns the map and the advanced `next_group_id`. -/
def groupMapStep (acc : List (ℕ × ℕ) × ℕ) (g : GroupRec) : List (ℕ × ℕ) × ℕ :=
  match lookupA acc.1 g.id with
  | some _ => acc
  | none => (acc.1 ++ [(g.id, acc.2)], acc.2 + 1)

def buildGroupMap (groups : List GroupRec) (ngid0 : ℕ) : List (ℕ × ℕ) × ℕ :=
  groups.foldl groupMapStep ([], ngid0)

/-- The element-id map of `paste_from_payload` (lines 750–752):
`insert(e.id, allocate_id())` over the payload's elements in order — a later
duplicate id replaces the earlier entry, and the allocator advances once per
element.  Returns the map and the advanced `next_id`. -/
def idMapStep (acc : List (ℕ × ℕ) × ℕ) (e : Element) : List (ℕ × ℕ) × ℕ :=
  (acc.1.filter (fun p => p.1 ≠ e.id) ++ [(e.id, acc.2)], acc.2 + 1)

def buildIdMap (elements : List Element) (nid0 : ℕ) : List (ℕ × ℕ) × ℕ :=
  elements.foldl idMapStep ([], nid0)

/-- The per-element clone of `paste_from_payload` (lines 753–781): fresh id,
group id remapped through the group map (dropped if the group is not in the
payload), line bindings remapped through the element-id map (cleared if the
target is not in the payload), then translated by the placement delta. -/
def pasteRemapElement (idm gm : List (ℕ × ℕ)) (delta : Point) (e : Element) : Element :=
  let remapBinding : Option Binding → Option Binding := fun ob =>
    ob.bind fun bind =>
      (lookupA idm bind.element_id).map fun m => { bind with element_id := m }
  let k := match e.kind with
    | .line a b arrow ast sb eb => ElementKind.line a b arrow ast (remapBinding sb) (remapBinding eb)
    | k0 => k0
  translate_element
    { e with
      id := (lookupA idm e.id).getD 0
      group_id := e.group_id.bind (lookupA gm)
      kind := k }
    delta

/-- `DiagramApp::paste_from_payload` (actions.rs, lines 714–786): no-op on an
empty payload; else push an undo snapshot, clone the payload's groups and
elements under fresh ids (old→new maps), drop references leaving the
payload, translate so the cluster's bounding-box minimum lands at the
context/pointer position (or a (24, 24) offset), select the new ids, and
normalize groups.  (The degenerate rect stands in for `egui::Rect::NOTHING`,
which the source only reads for an empty payload — unreachable here.) -/
def paste_from_payload (vcc : String → ℕ) (s : AppState) (payload : ClipboardPayload) :
    AppState :=
  if payload.elements.isEmpty then s
  else
    let s1 := push_undo s
    let gm := buildGroupMap payload.groups s1.next_group_id
    let newGroups := payload.groups.map fun g =>
      (⟨(lookupA gm.1 g.id).getD 0, g.parent_id.bind (lookupA gm.1)⟩ : GroupRec)
    let s2 := { s1 with
      doc := { s1.doc with groups := s1.doc.groups ++ newGroups }
      next_group_id := gm.2 }
    let base : Option RectF := payload.elements.foldl
      (fun acc e =>
        match acc with
        | some r => some (r.union (element_bounds vcc e))
        | none => some (element_bounds vcc e))
      none
    let base_min := (base.getD ⟨⟨0, 0⟩, ⟨0, 0⟩⟩).min
    let target := (s.context_world_pos.or s.last_pointer_world).getD
      (base_min + ⟨24, 24⟩)
    let delta := target - base_min
    let im := buildIdMap payload.elements s1.next_id
    let newElems := payload.elements.map (pasteRemapElement im.1 gm.1 delta)
    normalize_groups { s2 with
      doc := { s2.doc with elements := s2.doc.elements ++ newElems }
      next_id := im.2
      selected := (newElems.map (·.id)).toFinset
      editing_text_id := none }

/-!
## Grouping, auto-connect, distribute (actions.rs, doc_ops.rs, update.rs)
-/

/-- `DiagramApp::group_selected` (actions.rs, lines 586–618): requires at
least 2 selection items (distinct roots plus ungrouped elements) — both
guards run before `push_undo`, so a failing precondition changes nothing.
The source iterates the selection `HashSet` in unspecified order; the model
reparents the roots in ascending order (the resulting records differ only in
`parent_id` writes to distinct records, so order is immaterial). -/
def group_selected (s : AppState) : AppState :=
  if s.selected.card < 2 then s
  else
    let selected_roots : Finset ℕ := s.selected.biUnion fun id =>
      match root_group_of_element s.doc id with
      | some r => {r}
      | none => ∅
    let selected_ungrouped : Finset ℕ :=
      s.selected.filter fun id => root_group_of_element s.doc id = none
    if selected_roots.card + selected_ungrouped.card < 2 then s
    else
      let s1 := push_undo s
      let gid := s1.next_group_id
      let d1 := { s1.doc with groups := s1.doc.groups ++ [⟨gid, none⟩] }
      let d2 := (selected_roots.sort (· ≤ ·)).foldl
        (fun d root => set_group_parent d root (some gid)) d1
      let d3 := { d2 with elements := d2.elements.map fun e =>
        if e.id ∈ selected_ungrouped then { e with group_id := some gid } else e }
      { s1 with
        doc := d3
        next_group_id := s1.next_group_id + 1 }

/-- `DiagramApp::element_center_world` (actions.rs, lines 463–474). -/
def element_center_world (vcc : String → ℕ) (doc : Document) (element_id : ℕ) :
    Option Point :=
  (doc.elements.find? (fun e => e.id = element_id)).map fun e =>
    match e.kind with
    | .rect rect _ | .ellipse rect _ | .triangle rect _ _
    | .parallelogram rect _ _ | .trapezoid rect _ _ => rect.center
    | .text pos _ => pos
    | _ => (element_bounds vcc e).center

/-- `DiagramApp::auto_connect_between` (actions.rs, lines 487–539): probe far
along the center-to-center direction for boundary attach points, and create
a bound line; on a failed binding, only set a status string. -/
def auto_connect_between (vcc : String → ℕ) (s : AppState) (a_id b_id : ℕ)
    (arrow_style : ArrowStyle) : AppState :=
  match element_center_world vcc s.doc a_id with
  | none => s
  | some ca =>
    match element_center_world vcc s.doc b_id with
    | none => s
    | some cb =>
      let dv := cb - ca
      let len := vecLength dv
      let dir := if len ≤ f32Epsilon then (⟨1, 0⟩ : Point) else ⟨dv.x / len, dv.y / len⟩
      let probe_a := ca + dir.smul 1000000
      let probe_b := cb - dir.smul 1000000
      match compute_binding_for_target s.doc a_id probe_a with
      | none => { s with status := some "Cannot bind start endpoint to selected object" }
      | some start_binding =>
        match compute_binding_for_target s.doc b_id probe_b with
        | none => { s with status := some "Cannot bind end endpoint to selected object" }
        | some end_binding =>
          let a_world := (resolve_binding_point s.doc start_binding).getD ca
          let b_world := (resolve_binding_point s.doc end_binding).getD cb
          let s1 := push_undo s
          let newEl : Element := ⟨s1.next_id, none, 0, true,
            .line a_world b_world false arrow_style (some start_binding) (some end_binding),
            { s1.style with fill := none }⟩
          set_selection_single
            { s1 with
              doc := { s1.doc with elements := s1.doc.elements ++ [newEl] }
              next_id := s1.next_id + 1 }
            s1.next_id

/-- `DiagramApp::auto_connect_selected` (actions.rs, lines 476–485): with a
selection of any size other than 2, only set a status string; else connect
the two selected elements (the source draws them from the `HashSet` in
unspecified order; the model takes them in ascending order). -/
def auto_connect_selected (vcc : String → ℕ) (s : AppState) (arrow_style : ArrowStyle) :
    AppState :=
  if s.selected.card ≠ 2 then
    { s with status := some "Select exactly 2 objects to connect" }
  else
    let l := s.selected.sort (· ≤ ·)
    auto_connect_between vcc s (l.headD 0) ((l.drop 1).headD 0) arrow_style

/-- `DistributeMode` (doc_ops.rs). -/
inductive DistributeMode where
  | horizontal
  | vertical
deriving DecidableEq

/-- Stable insertion into a key-sorted list: the new item goes after every
item whose key is not greater — the order produced by the source's stable
`sort_by(total_cmp)`. -/
def insertByKey {α : Type} (key : α → ℝ) (x : α) : List α → List α
  | [] => [x]
  | y :: ys => if key y ≤ key x then y :: insertByKey key x ys else x :: y :: ys

/-- Stable sort by a real-valued key (models `sort_by(a.total_cmp(b))`). -/
def sortByKey {α : Type} (key : α → ℝ) : List α → List α
  | [] => []
  | x :: xs => insertByKey key x (sortByKey key xs)

/-- Translate the first element with the given id (`iter_mut().find`). -/
def translateFirst : List Element → ℕ → Point → List Element
  | [], _, _ => []
  | e :: rest, id, delta =>
    if e.id = id then translate_element e delta :: rest
    else e :: translateFirst rest id delta

/-- `distribute_selected` (doc_ops.rs, lines 57–101): no-op below 3 selected
items; else sort the selected bounds by center along the axis and move each
to the equally spaced position between the first and last centers. -/
def distribute_selected (vcc : String → ℕ) (doc : Document) (sel : Finset ℕ)
    (mode : DistributeMode) : Document :=
  if sel.card < 3 then doc
  else
    let items := doc.elements.filterMap fun e =>
      if e.id ∈ sel then some (e.id, element_bounds vcc e) else none
    if items.length < 3 then doc
    else
      let key : ℕ × RectF → ℝ := fun it =>
        match mode with
        | .horizontal => it.2.center.x
        | .vertical => it.2.center.y
      let sorted := sortByKey key items
      let first := key (sorted.headD (0, ⟨⟨0, 0⟩, ⟨0, 0⟩⟩))
      let last := key (sorted.getLastD (0, ⟨⟨0, 0⟩, ⟨0, 0⟩⟩))
      let step := (last - first) / ((sorted.length - 1 : ℕ) : ℝ)
      (sorted.enum).foldl
        (fun d (it : ℕ × ℕ × RectF) =>
          let target := first + step * (it.1 : ℝ)
          let delta : Point :=
            match mode with
            | .horizontal => ⟨target - it.2.2.center.x, 0⟩
            | .vertical => ⟨0, target - it.2.2.center.y⟩
          { d with elements := translateFirst d.elements it.2.1 delta })
        doc

/-- The "Distribute Horizontally"/"Distribute Vertically" context-menu entry
(update.rs, lines 327–337): the button is enabled whenever at least 2
elements are selected, and its click handler calls `push_undo()`
unconditionally before `distribute_selected`. -/
def distribute_click (vcc : String → ℕ) (s : AppState) (mode : DistributeMode) : AppState :=
  if 2 ≤ s.selected.card then
    let s1 := push_undo s
    { s1 with doc := distribute_selected vcc s1.doc s1.selected mode }
  else s

/-!
## C9, C8, C1: history discipline
-/

theorem getLast?_drop_of_lt {α : Type} (l : List α) (k : ℕ) (h : k < l.length) :
    (l.drop k).getLast? = l.getLast? := by
  conv_rhs => rw [← List.take_append_drop k l]
  rw [List.getLast?_append_of_ne_nil]
  intro hnil
  have hlen := congrArg List.length hnil
  rw [List.length_drop] at hlen
  simp at hlen
  omega

theorem push_undo_history_getLast (s : AppState) :
    (push_undo s).history.getLast? = some (snapshot s) := by
  show (if (s.history ++ [snapshot s]).length > 200
      then (s.history ++ [snapshot s]).drop ((s.history ++ [snapshot s]).length - 200)
      else s.history ++ [snapshot s]).getLast? = some (snapshot s)
  have hlast : (s.history ++ [snapshot s]).getLast? = some (snapshot s) := by
    rw [List.getLast?_append_of_ne_nil _ (by simp)]
    rfl
  split
  · next h =>
    rw [getLast?_drop_of_lt _ _ (by omega), hlast]
  · exact hlast

/-- C9: `push_undo` appends a snapshot of the current state as the newest
history entry, keeps only the most recent 200 entries (dropping the oldest),
and clears the redo stack; afterwards the history length is at most 200 and
`future` is empty. -/
theorem push_undo_truncates (s : AppState) :
    (push_undo s).history
      = (s.history ++ [snapshot s]).drop ((s.history.length + 1) - 200) ∧
    (push_undo s).future = [] ∧
    (push_undo s).history.length ≤ 200 ∧
    (push_undo s).history.getLast? = some (snapshot s) := by
  have hlen : (s.history ++ [snapshot s]).length = s.history.length + 1 := by simp
  refine ⟨?_, rfl, ?_, push_undo_history_getLast s⟩
  · show (if (s.history ++ [snapshot s]).length > 200
        then (s.history ++ [snapshot s]).drop ((s.history ++ [snapshot s]).length - 200)
        else s.history ++ [snapshot s]) = _
    rw [hlen]
    split
    · rfl
    · next h =>
      rw [show s.history.length + 1 - 200 = 0 by omega, List.drop_zero]
  · show (if (s.history ++ [snapshot s]).length > 200
        then (s.history ++ [snapshot s]).drop ((s.history ++ [snapshot s]).length - 200)
        else s.history ++ [snapshot s]).length ≤ 200
    split
    · next h =>
      rw [List.length_drop]
      omega
    · next h =>
      rw [hlen] at h ⊢
      omega

/-- C8 (amended): `restore` installs the snapshot's doc, selection, id
allocators and style, and resets `in_progress`, the text-edit focus and the
status message to `None` — but leaves `active_transform` unchanged (the
source's `restore` never touches that field); `undo` and `redo` likewise
leave it unchanged. -/
theorem restore_resets_transients (s : AppState) (snap : Snapshot) :
    (restore s snap).doc = snap.doc ∧
    (restore s snap).selected = snap.selected ∧
    (restore s snap).next_id = snap.next_id ∧
    (restore s snap).next_group_id = snap.next_group_id ∧
    (restore s snap).style = snap.style ∧
    (restore s snap).in_progress = none ∧
    (restore s snap).editing_text_id = none ∧
    (restore s snap).status = none ∧
    (restore s snap).active_transform = s.active_transform ∧
    (undo s).active_transform = s.active_transform ∧
    (redo s).active_transform = s.active_transform := by
  refine ⟨rfl, rfl, rfl, rfl, rfl, rfl, rfl, rfl, rfl, ?_, ?_⟩
  · unfold undo
    cases s.history.getLast? <;> rfl
  · unfold redo
    cases s.future.getLast? <;> rfl

/-- C8 counterexample: a state holding an active transform keeps it across
`restore` — the claim that `restore` clears `active_transform` is false. -/
theorem restore_active_transform_counterexample :
    (restore
      ⟨⟨[], []⟩, ∅, 1, 1, styleW, none, some (.shapeAdjust 5 .triangleApex), none, none,
        [], [], none, none, none⟩
      ⟨⟨[], []⟩, ∅, 1, 1, styleW⟩).active_transform ≠ none := by
  intro h
  exact Option.noConfusion h

theorem undo_redo_core (s : AppState) (op opMut : AppState → AppState)
    (hop : op s = opMut (push_undo s))
    (hmut : ∀ t, (opMut t).history = t.history ∧ (opMut t).future = t.future) :
    (undo (op s)).doc = s.doc ∧ (redo (undo (op s))).doc = (op s).doc := by
  have hh : (op s).history = (push_undo s).history := by rw [hop]; exact (hmut _).1
  have hf : (op s).future = [] := by rw [hop]; exact (hmut _).2
  have hlast : (op s).history.getLast? = some (snapshot s) := by
    rw [hh]; exact push_undo_history_getLast s
  have hu : undo (op s)
      = restore
          { op s with
            history := (op s).history.dropLast
            future := (op s).future ++ [snapshot (op s)] }
          (snapshot s) := by
    unfold undo
    rw [hlast]
  constructor
  · rw [hu]; rfl
  · have hfu : (undo (op s)).future = [snapshot (op s)] := by
      rw [hu]
      show (op s).future ++ [snapshot (op s)] = _
      rw [hf]
      rfl
    have hlast2 : (undo (op s)).future.getLast? = some (snapshot (op s)) := by
      rw [hfu]; rfl
    have hr : redo (undo (op s))
        = restore
            { undo (op s) with
              future := (undo (op s)).future.dropLast
              history := (undo (op s)).history ++ [snapshot (undo (op s))] }
            (snapshot (op s)) := by
      unfold redo
      rw [hlast2]
    rw [hr]; rfl

/-- C1: any operation of the form "`push_undo()` once, then a mutation that
does not touch the history or redo stacks" is inverted exactly by `undo()`
(the prior `Document` comes back field-for-field), and `redo()` after that
`undo()` restores the post-operation `Document` exactly.  In particular this
holds for `delete_selected` on a non-empty selection, `duplicate_selected`
on a non-empty selection, and `paste_from_payload` on a non-empty payload. -/
theorem undo_redo_inverse (s : AppState) (payload : ClipboardPayload)
    (vcc : String → ℕ) (op opMut : AppState → AppState)
    (hop : op s = opMut (push_undo s))
    (hmut : ∀ t, (opMut t).history = t.history ∧ (opMut t).future = t.future) :
    ((undo (op s)).doc = s.doc ∧ (redo (undo (op s))).doc = (op s).doc) ∧
    (s.selected ≠ ∅ →
      (undo (delete_selected s)).doc = s.doc ∧
      (redo (undo (delete_selected s))).doc = (delete_selected s).doc) ∧
    (s.selected ≠ ∅ →
      (undo (duplicate_selected s)).doc = s.doc ∧
      (redo (undo (duplicate_selected s))).doc = (duplicate_selected s).doc) ∧
    (payload.elements ≠ [] →
      (undo (paste_from_payload vcc s payload)).doc = s.doc ∧
      (redo (undo (paste_from_payload vcc s payload))).doc
        = (paste_from_payload vcc s payload).doc) := by
  refine ⟨undo_redo_core s op opMut hop hmut, fun h => ?_, fun h => ?_, fun h => ?_⟩
  · exact undo_redo_core s delete_selected
      (fun t =>
        let kept := t.doc.elements.filter fun e => decide (e.id ∉ t.selected)
        let fixed := kept.map (delete_fix_line t.doc t.selected)
        normalize_groups (clear_selection { t with doc := { t.doc with elements := fixed } }))
      (by unfold delete_selected; rw [if_neg h])
      (fun t => ⟨rfl, rfl⟩)
  · exact undo_redo_core s duplicate_selected
      (fun t =>
        let step := t.doc.elements.foldl
          (fun (acc : List Element × ℕ) e =>
            if e.id ∈ t.selected then
              (acc.1 ++ [translate_element { e with id := acc.2, group_id := none } ⟨12, 12⟩],
                acc.2 + 1)
            else acc)
          ([], t.next_id)
        { t with
          doc := { t.doc with elements := t.doc.elements ++ step.1 }
          next_id := step.2
          selected := (step.1.map (·.id)).toFinset
          editing_text_id := none })
      (by unfold duplicate_selected; rw [if_neg h])
      (fun t => ⟨rfl, rfl⟩)
  · refine undo_redo_core s (fun u => paste_from_payload vcc u payload)
      (fun t =>
        let gm := buildGroupMap payload.groups t.next_group_id
        let newGroups := payload.groups.map fun g =>
          (⟨(lookupA gm.1 g.id).getD 0, g.parent_id.bind (lookupA gm.1)⟩ : GroupRec)
        let s2 := { t with
          doc := { t.doc with groups := t.doc.groups ++ newGroups }
          next_group_id := gm.2 }
        let base : Option RectF := payload.elements.foldl
          (fun acc e =>
            match acc with
            | some r => some (r.union (element_bounds vcc e))
            | none => some (element_bounds vcc e))
          none
        let base_min := (base.getD ⟨⟨0, 0⟩, ⟨0, 0⟩⟩).min
        let target := (t.context_world_pos.or t.last_pointer_world).getD
          (base_min + ⟨24, 24⟩)
        let delta := target - base_min
        let im := buildIdMap payload.elements t.next_id
        let newElems := payload.elements.map (pasteRemapElement im.1 gm.1 delta)
        normalize_groups { s2 with
          doc := { s2.doc with elements := s2.doc.elements ++ newElems }
          next_id := im.2
          selected := (newElems.map (·.id)).toFinset
          editing_text_id := none })
      ?_ ?_
    · show paste_from_payload vcc s payload = _
      unfold paste_from_payload
      rw [if_neg (by simpa [List.isEmpty_iff] using h)]
      rfl
    · intro t
      exact ⟨rfl, rfl⟩

/-- A one-rectangle editor state used by witnesses. -/
def appC1 : AppState :=
  ⟨⟨[⟨1, none, 0, true, .rect ⟨⟨0, 0⟩, ⟨10, 10⟩⟩ "", styleW⟩], []⟩, {1}, 2, 1, styleW,
    none, none, none, none, [], [], none, none, none⟩

/-- A one-rectangle clipboard payload used by witnesses. -/
def payloadC1 : ClipboardPayload :=
  ⟨[⟨1, none, 0, true, .rect ⟨⟨0, 0⟩, ⟨10, 10⟩⟩ "", styleW⟩], []⟩

/-- Witness for C1 at a concrete one-rectangle state with a non-empty
selection and a non-empty payload. -/
theorem undo_redo_inverse_witness :
    (undo (delete_selected appC1)).doc = appC1.doc ∧
    (redo (undo (delete_selected appC1))).doc = (delete_selected appC1).doc ∧
    (undo (duplicate_selected appC1)).doc = appC1.doc ∧
    (undo (paste_from_payload (fun _ => 0) appC1 payloadC1)).doc = appC1.doc := by
  have h := undo_redo_inverse appC1 payloadC1 (fun _ => 0) push_undo id rfl
    (fun t => ⟨rfl, rfl⟩)
  have hsel : appC1.selected ≠ ∅ := by
    show ({1} : Finset ℕ) ≠ ∅
    decide
  have hpay : payloadC1.elements ≠ [] := by
    intro hcon
    exact List.noConfusion hcon
  exact ⟨(h.2.1 hsel).1, (h.2.1 hsel).2, (h.2.2.1 hsel).1, (h.2.2.2 hpay).1⟩

/-!
## C5: group selection closure
-/

theorem iterParent_of_root (doc : Document) (g : ℕ) (h : group_parent doc g = none) :
    ∀ m, iterParent doc m g = g := by
  intro m
  cases m with
  | zero => rfl
  | succ i =>
    unfold iterParent
    rw [h]

theorem iterParent_stable (doc : Document) :
    ∀ (k g r : ℕ), iterParent doc k g = r → group_parent doc r = none →
      ∀ m, k ≤ m → iterParent doc m g = r := by
  intro k
  induction k with
  | zero =>
    intro g r hk hr m _
    have hg : g = r := hk
    subst hg
    exact iterParent_of_root doc g hr m
  | succ j ih =>
    intro g r hk hr m hm
    cases hp : group_parent doc g with
    | none =>
      have hg : g = r := by
        unfold iterParent at hk
        rw [hp] at hk
        exact hk
      subst hg
      exact iterParent_of_root doc g hp m
    | some p =>
      have hk' : iterParent doc j p = r := by
        unfold iterParent at hk
        rw [hp] at hk
        exact hk
      obtain ⟨i, rfl⟩ : ∃ i, m = i + 1 := ⟨m - 1, by omega⟩
      show iterParent doc (i + 1) g = r
      unfold iterParent
      rw [hp]
      exact ih p r hk' hr i (by omega)

/-- C5 (amended): for an element whose `parent_id` chain reaches its root
`r` within at most 256 hops (the bound of `group_root`),
`set_selection_single` selects exactly `group_members_recursive(r)`; for an
ungrouped element it selects exactly the singleton. -/
theorem group_selection_closure (s : AppState) (eid : ℕ) (e : Element)
    (hfind : s.doc.elements.find? (fun el => el.id = eid) = some e) :
    (∀ g r k, e.group_id = some g → k ≤ 256 → iterParent s.doc k g = r →
      group_parent s.doc r = none →
      (set_selection_single s eid).selected
        = (group_members_recursive s.doc r).toFinset) ∧
    (e.group_id = none → (set_selection_single s eid).selected = {eid}) := by
  have hgof : group_of s.doc eid = e.group_id := by
    unfold group_of
    rw [hfind]
    rfl
  constructor
  · intro g r k hg hk hiter hroot
    have h256 : iterParent s.doc 256 g = r :=
      iterParent_stable s.doc k g r hiter hroot 256 hk
    have hrge : root_group_of_element s.doc eid = some r := by
      unfold root_group_of_element
      rw [hgof, hg]
      show some (group_root s.doc g) = some r
      rw [show group_root s.doc g = r from h256]
    unfold set_selection_single
    rw [hrge]
  · intro hg
    have hrge : root_group_of_element s.doc eid = none := by
      unfold root_group_of_element
      rw [hgof, hg]
      rfl
    unfold set_selection_single
    rw [hrge]

/-- The group-chain generator for the C5 counterexample: group `i` has
parent `i + 1` for `i < 257`; group 257 is the root. -/
def chainF : ℕ → GroupRec := fun i => ⟨i, if i < 257 then some (i + 1) else none⟩

/-- A 258-deep group chain, with element 1 attached at the bottom and
element 2 attached directly to the root group 257. -/
def docC5x : Document :=
  ⟨[⟨1, some 0, 0, true, .rect ⟨⟨0, 0⟩, ⟨1, 1⟩⟩ "", styleW⟩,
    ⟨2, some 257, 0, true, .rect ⟨⟨0, 0⟩, ⟨1, 1⟩⟩ "", styleW⟩],
   (List.range 258).map chainF⟩

/-- The editor state over `docC5x`. -/
def appC5x : AppState :=
  ⟨docC5x, ∅, 3, 258, styleW, none, none, none, none, [], [], none, none, none⟩

theorem find?_map_range (f : ℕ → GroupRec) (hid : ∀ j, (f j).id = j) :
    ∀ n i, i < n →
      ((List.range n).map f).find? (fun g => g.id = i) = some (f i) := by
  intro n
  induction n with
  | zero => intro i h; omega
  | succ m ih =>
    intro i h
    rw [List.range_succ, List.map_append, List.find?_append]
    by_cases him : i < m
    · rw [ih i him]
      rfl
    · have hi : i = m := by omega
      subst hi
      have hnone : ((List.range i).map f).find? (fun g => g.id = i) = none := by
        rw [List.find?_eq_none]
        intro g hg
        rcases List.mem_map.mp hg with ⟨j, hj, rfl⟩
        have hjm : j < i := List.mem_range.mp hj
        simp [hid j]
        omega
      rw [hnone]
      simp [List.find?, hid i]

theorem docC5x_parent_lt (i : ℕ) (h : i < 257) :
    group_parent docC5x i = some (i + 1) := by
  show (((List.range 258).map chainF).find? (fun g => g.id = i)).bind (·.parent_id)
    = some (i + 1)
  rw [find?_map_range chainF (fun j => rfl) 258 i (by omega)]
  show (if i < 257 then some (i + 1) else none) = some (i + 1)
  rw [if_pos h]

theorem docC5x_parent_root : group_parent docC5x 257 = none := by
  show (((List.range 258).map chainF).find? (fun g => g.id = 257)).bind (·.parent_id) = none
  rw [find?_map_range chainF (fun j => rfl) 258 257 (by omega)]
  show (if 257 < 257 then some 258 else none) = none
  rw [if_neg (by omega)]

theorem docC5x_iterParent : ∀ (k g : ℕ), g + k ≤ 257 → iterParent docC5x k g = g + k := by
  intro k
  induction k with
  | zero =>
    intro g h
    show g = g + 0
    omega
  | succ j ih =>
    intro g h
    show iterParent docC5x (j + 1) g = g + (j + 1)
    unfold iterParent
    rw [docC5x_parent_lt g (by omega)]
    show iterParent docC5x j (g + 1) = g + (j + 1)
    rw [ih (g + 1) (by omega)]
    omega

theorem descendants_loop_mono (groups : List GroupRec) :
    ∀ fuel stack out x, x ∈ out → x ∈ group_descendants_loop groups fuel stack out := by
  intro fuel
  induction fuel with
  | zero => intro stack out x hx; exact hx
  | succ f ih =>
    intro stack out x hx
    cases stack with
    | nil => exact hx
    | cons g rest => exact ih _ _ x (List.mem_append.mpr (Or.inl hx))

theorem descendants_loop_head (groups : List GroupRec) (fuel : ℕ) (hf : 0 < fuel)
    (g : ℕ) (rest out : List ℕ) :
    g ∈ group_descendants_loop groups fuel (g :: rest) out := by
  obtain ⟨f, rfl⟩ : ∃ f, fuel = f + 1 := ⟨fuel - 1, by omega⟩
  show g ∈ group_descendants_loop groups f
    ((groupChildren groups g).reverse ++ rest) (out ++ [g])
  exact descendants_loop_mono groups f _ _ g (by simp)

theorem descendants_loop_invariant (groups : List GroupRec) (P : ℕ → Prop)
    (hclosed : ∀ g, P g → ∀ c ∈ groupChildren groups g, P c) :
    ∀ fuel stack out, (∀ x ∈ stack, P x) → (∀ x ∈ out, P x) →
      ∀ x ∈ group_descendants_loop groups fuel stack out, P x := by
  intro fuel
  induction fuel with
  | zero => intro stack out _ ho x hx; exact ho x hx
  | succ f ih =>
    intro stack out hs ho x hx
    cases stack with
    | nil => exact ho x hx
    | cons g rest =>
      refine ih _ _ ?_ ?_ x hx
      · intro y hy
        rcases List.mem_append.mp hy with hy | hy
        · exact hclosed g (hs g (by simp)) y (List.mem_reverse.mp hy)
        · exact hs y (by simp [hy])
      · intro y hy
        rcases List.mem_append.mp hy with hy | hy
        · exact ho y hy
        · have hyg : y = g := by simpa using hy
          subst hyg
          exact hs y (by simp)

theorem docC5x_children_le (g : ℕ) (hg : g ≤ 256) :
    ∀ c ∈ groupChildren docC5x.groups g, c ≤ 256 := by
  intro c hc
  unfold groupChildren at hc
  rcases List.mem_map.mp hc with ⟨gr, hgr, rfl⟩
  have h1 := (List.mem_filter.mp hgr).1
  have h2 := (List.mem_filter.mp hgr).2
  rcases List.mem_map.mp h1 with ⟨j, hj, rfl⟩
  have hpar : (chainF j).parent_id = some g := by simpa using h2
  by_cases hj257 : j < 257
  · have hjg : j + 1 = g := by
      have hx : (if j < 257 then some (j + 1) else none) = some g := hpar
      rw [if_pos hj257] at hx
      simpa using hx
    show j ≤ 256
    omega
  · exfalso
    have hx : (if j < 257 then some (j + 1) else none) = some g := hpar
    rw [if_neg hj257] at hx
    exact Option.noConfusion hx

theorem mem_descendants_self_257 :
    (257 : ℕ) ∈ group_descendants_inclusive docC5x 257 := by
  unfold group_descendants_inclusive
  exact descendants_loop_head _ _ (by positivity) 257 [] []

theorem not_mem_descendants_256 :
    (257 : ℕ) ∉ group_descendants_inclusive docC5x 256 := by
  intro hmem
  have h := descendants_loop_invariant docC5x.groups (· ≤ 256)
    (fun g hg c hc => docC5x_children_le g hg c hc) _ [256] []
    (by intro x hx; rw [List.mem_singleton] at hx; omega)
    (by intro x hx; exact absurd hx (List.not_mem_nil x))
    257 hmem
  omega

theorem two_mem_members_257 :
    (2 : ℕ) ∈ group_members_recursive docC5x 257 := by
  apply List.mem_filterMap.mpr
  refine ⟨⟨2, some 257, 0, true, .rect ⟨⟨0, 0⟩, ⟨1, 1⟩⟩ "", styleW⟩, by simp [docC5x], ?_⟩
  show (if (257 : ℕ) ∈ group_descendants_inclusive docC5x 257
    then some (2 : ℕ) else none) = some 2
  rw [if_pos mem_descendants_self_257]

theorem two_not_mem_members_256 :
    (2 : ℕ) ∉ group_members_recursive docC5x 256 := by
  intro hmem
  rcases List.mem_filterMap.mp hmem with ⟨e, he, hfe⟩
  have he' : e = (⟨1, some 0, 0, true, .rect ⟨⟨0, 0⟩, ⟨1, 1⟩⟩ "", styleW⟩ : Element)
      ∨ e = ⟨2, some 257, 0, true, .rect ⟨⟨0, 0⟩, ⟨1, 1⟩⟩ "", styleW⟩ := by
    simpa [docC5x] using he
  rcases he' with rfl | rfl
  · have hx : (if (0 : ℕ) ∈ group_descendants_inclusive docC5x 256
        then some (1 : ℕ) else none) = some 2 := hfe
    revert hx
    split
    · intro hx
      simp at hx
    · intro hx
      exact Option.noConfusion hx
  · have hx : (if (257 : ℕ) ∈ group_descendants_inclusive docC5x 256
        then some (2 : ℕ) else none) = some 2 := hfe
    rw [if_neg not_mem_descendants_256] at hx
    exact Option.noConfusion hx

theorem selection_C5x :
    (set_selection_single appC5x 1).selected
      = (group_members_recursive docC5x 256).toFinset := by
  have hroot : group_root appC5x.doc 0 = 256 := by
    show iterParent docC5x 256 0 = 256
    rw [docC5x_iterParent 256 0 (by omega)]
  have hrge : root_group_of_element appC5x.doc 1 = some 256 := by
    unfold root_group_of_element group_of
    show ((appC5x.doc.elements.find? (fun e => e.id = 1)).bind
      (·.group_id)).map (group_root appC5x.doc) = some 256
    rw [show appC5x.doc.elements.find? (fun e => e.id = 1)
      = some ⟨1, some 0, 0, true, .rect ⟨⟨0, 0⟩, ⟨1, 1⟩⟩ "", styleW⟩ from rfl]
    show some (group_root appC5x.doc 0) = some 256
    rw [hroot]
  unfold set_selection_single
  rw [hrge]
  rfl

/-- C5 counterexample: at nesting depth 257 the root reached by walking the
parent chain is group 257, yet `set_selection_single` on element 1 selects
only what the 256-hop-bounded `group_root` walk finds — element 2, attached
to the true root, is missing, so the selection is not
`group_members_recursive(root)`. -/
theorem group_selection_depth_counterexample :
    iterParent docC5x 257 0 = 257 ∧
    group_parent docC5x 257 = none ∧
    (set_selection_single appC5x 1).selected
      ≠ (group_members_recursive docC5x 257).toFinset := by
  refine ⟨by rw [docC5x_iterParent 257 0 (by omega)], docC5x_parent_root, ?_⟩
  intro heq
  rw [selection_C5x] at heq
  have h2 : (2 : ℕ) ∈ (group_members_recursive docC5x 257).toFinset :=
    List.mem_toFinset.mpr two_mem_members_257
  rw [← heq] at h2
  exact two_not_mem_members_256 (List.mem_toFinset.mp h2)

/-- A two-member single group used by the C5 witness. -/
def appC5w : AppState :=
  ⟨⟨[⟨1, some 0, 0, true, .rect ⟨⟨0, 0⟩, ⟨1, 1⟩⟩ "", styleW⟩,
     ⟨2, some 0, 0, true, .rect ⟨⟨0, 0⟩, ⟨1, 1⟩⟩ "", styleW⟩],
    [⟨0, none⟩]⟩, ∅, 3, 1, styleW, none, none, none, none, [], [], none, none, none⟩

/-- Witness for C5's amended theorem: selecting one member of a two-member
group yields exactly the group's recursive membership. -/
theorem group_selection_closure_witness :
    (set_selection_single appC5w 1).selected
      = (group_members_recursive appC5w.doc 0).toFinset :=
  (group_selection_closure appC5w 1
      ⟨1, some 0, 0, true, .rect ⟨⟨0, 0⟩, ⟨1, 1⟩⟩ "", styleW⟩ rfl).1
    0 0 0 rfl (Nat.zero_le 256) rfl rfl

/-!
## C6: cardinality preconditions and the Distribute entry point
-/

/-- Two grouped rectangles, both selected — one selection root. -/
def appC6 : AppState :=
  ⟨⟨[⟨1, some 0, 0, true, .rect ⟨⟨0, 0⟩, ⟨10, 10⟩⟩ "", styleW⟩,
     ⟨2, some 0, 0, true, .rect ⟨⟨20, 0⟩, ⟨30, 10⟩⟩ "", styleW⟩],
    [⟨0, none⟩]⟩, {1, 2}, 3, 1, styleW, none, none, none, none, [], [], none, none, none⟩

/-- The same state with a single selected element. -/
def appC6c : AppState := { appC6 with selected := {1} }

/-- C6: the cardinality guards themselves behave as claimed —
`group_selected` with fewer than 2 selection roots is a complete no-op (no
push, no mutation), `auto_connect_selected` with a selection size other than
2 changes neither document nor history, and `distribute_selected` itself
no-ops below 3 — but the Distribute context-menu entry (update.rs, lines
327–337) is enabled from 2 selected and calls `push_undo()` before the
no-op, so with exactly 2 selected it leaves the document unchanged while
still growing the history by one: a spurious history entry the claim says
cannot be created. -/
theorem cardinality_guards_and_distribute_entry_bug :
    group_selected appC6 = appC6 ∧
    (auto_connect_selected (fun _ => 0) appC6c ArrowStyle.none).doc = appC6c.doc ∧
    (auto_connect_selected (fun _ => 0) appC6c ArrowStyle.none).history = appC6c.history ∧
    distribute_selected (fun _ => 0) appC6.doc appC6.selected DistributeMode.horizontal
      = appC6.doc ∧
    (distribute_click (fun _ => 0) appC6 DistributeMode.horizontal).doc = appC6.doc ∧
    (distribute_click (fun _ => 0) appC6 DistributeMode.horizontal).history.length
      = appC6.history.length + 1 :=
  ⟨rfl, rfl, rfl, rfl, rfl, rfl⟩

/-!
## C4: paste non-collision
-/

/-- The stored start binding of a line kind (`none` for other kinds). -/
def lineStartBinding : ElementKind → Option Binding
  | .line _ _ _ _ sb _ => sb
  | _ => none

/-- The stored end binding of a line kind (`none` for other kinds). -/
def lineEndBinding : ElementKind → Option Binding
  | .line _ _ _ _ _ eb => eb
  | _ => none

theorem translate_lineStartBinding (e : Element) (d : Point) :
    lineStartBinding (translate_element e d).kind = lineStartBinding e.kind := by
  cases e with
  | mk eid gid rot snap k st => cases k <;> rfl

theorem translate_lineEndBinding (e : Element) (d : Point) :
    lineEndBinding (translate_element e d).kind = lineEndBinding e.kind := by
  cases e with
  | mk eid gid rot snap k st => cases k <;> rfl

theorem lookupA_mem {m : List (ℕ × ℕ)} {k v : ℕ} (h : lookupA m k = some v) :
    (k, v) ∈ m := by
  unfold lookupA at h
  cases hf : m.find? (fun p => p.1 = k) with
  | none => rw [hf] at h; exact Option.noConfusion h
  | some p =>
    rw [hf] at h
    have hv : p.2 = v := by simpa using h
    have hmem := List.mem_of_find?_eq_some hf
    have hkey : p.1 = k := by simpa using List.find?_some hf
    cases p with
    | mk p1 p2 =>
      cases hkey
      cases hv
      exact hmem

theorem foldIdMap_snd (elements : List Element) :
    ∀ (acc : List (ℕ × ℕ)) (n : ℕ),
      (elements.foldl idMapStep (acc, n)).2 = n + elements.length := by
  induction elements with
  | nil => intro acc n; simp
  | cons e rest ih =>
    intro acc n
    rw [List.foldl_cons]
    show (rest.foldl idMapStep
      (acc.filter (fun p => p.1 ≠ e.id) ++ [(e.id, n)], n + 1)).2 = _
    rw [ih, List.length_cons]
    omega

theorem foldIdMap_entries (elements : List Element) :
    ∀ (acc : List (ℕ × ℕ)) (n : ℕ),
      ∀ p ∈ (elements.foldl idMapStep (acc, n)).1,
        p ∈ acc ∨ (n ≤ p.2 ∧ p.2 < n + elements.length) := by
  induction elements with
  | nil => intro acc n p hp; exact Or.inl hp
  | cons e rest ih =>
    intro acc n p hp
    rw [List.foldl_cons] at hp
    have hp' : p ∈ (rest.foldl idMapStep
        (acc.filter (fun q => q.1 ≠ e.id) ++ [(e.id, n)], n + 1)).1 := hp
    rcases ih _ _ p hp' with hin | ⟨h1, h2⟩
    · rcases List.mem_append.mp hin with hf | hone
      · exact Or.inl (List.mem_of_mem_filter hf)
      · right
        have hpe : p = (e.id, n) := by simpa using hone
        subst hpe
        refine ⟨le_refl n, ?_⟩
        rw [List.length_cons]
        omega
    · right
      rw [List.length_cons]
      exact ⟨by omega, by omega⟩

theorem find?_filter_ne (acc : List (ℕ × ℕ)) (k eid : ℕ) (hk : k ≠ eid) :
    (acc.filter (fun p => p.1 ≠ eid)).find? (fun p => p.1 = k)
      = acc.find? (fun p => p.1 = k) := by
  induction acc with
  | nil => rfl
  | cons a rest ih =>
    by_cases hak : a.1 = k
    · have hne : a.1 ≠ eid := by rw [hak]; exact hk
      rw [List.filter_cons_of_pos (by simpa using hne),
        List.find?_cons_of_pos _ (by simpa using hak),
        List.find?_cons_of_pos _ (by simpa using hak)]
    · by_cases hae : a.1 = eid
      · rw [List.filter_cons_of_neg (by simpa using hae),
          List.find?_cons_of_neg _ (by simpa using hak), ih]
      · rw [List.filter_cons_of_pos (by simpa using hae),
          List.find?_cons_of_neg _ (by simpa using hak),
          List.find?_cons_of_neg _ (by simpa using hak), ih]

theorem find?_filter_self_none (acc : List (ℕ × ℕ)) (k : ℕ) :
    (acc.filter (fun p => p.1 ≠ k)).find? (fun p => p.1 = k) = none := by
  induction acc with
  | nil => rfl
  | cons a rest ih =>
    by_cases hak : a.1 = k
    · rw [List.filter_cons_of_neg (by simpa using hak)]
      exact ih
    · rw [List.filter_cons_of_pos (by simpa using hak),
        List.find?_cons_of_neg _ (by simpa using hak)]
      exact ih

theorem foldIdMap_lookup_preserved (elements : List Element) :
    ∀ (acc : List (ℕ × ℕ)) (n k : ℕ), k ∉ elements.map (·.id) →
      lookupA (elements.foldl idMapStep (acc, n)).1 k = lookupA acc k := by
  induction elements with
  | nil => intro acc n k _; rfl
  | cons e rest ih =>
    intro acc n k hk
    have hke : k ≠ e.id := fun h => hk (by simp [h])
    have hkrest : k ∉ rest.map (·.id) := fun h => hk (by simp [h])
    rw [List.foldl_cons]
    have := ih (acc.filter (fun q => q.1 ≠ e.id) ++ [(e.id, n)]) (n + 1) k hkrest
    rw [show idMapStep (acc, n) e
        = (acc.filter (fun q => q.1 ≠ e.id) ++ [(e.id, n)], n + 1) from rfl, this]
    unfold lookupA
    rw [List.find?_append, find?_filter_ne acc k e.id hke,
      List.find?_cons_of_neg _ (by simpa using Ne.symm hke)]
    simp [List.find?]

theorem foldIdMap_coverage (elements : List Element) :
    ∀ (acc : List (ℕ × ℕ)) (n k : ℕ), k ∈ elements.map (·.id) →
      ∃ v, lookupA (elements.foldl idMapStep (acc, n)).1 k = some v := by
  induction elements with
  | nil => intro acc n k hk; simp at hk
  | cons e rest ih =>
    intro acc n k hk
    rw [List.foldl_cons,
      show idMapStep (acc, n) e
        = (acc.filter (fun q => q.1 ≠ e.id) ++ [(e.id, n)], n + 1) from rfl]
    by_cases hkrest : k ∈ rest.map (·.id)
    · exact ih _ _ k hkrest
    · have hke : k = e.id := by
        rcases (by simpa using hk : k = e.id ∨ k ∈ rest.map (·.id)) with h | h
        · exact h
        · exact absurd h hkrest
      subst hke
      rw [foldIdMap_lookup_preserved rest _ _ e.id hkrest]
      unfold lookupA
      rw [List.find?_append, find?_filter_self_none acc e.id,
        List.find?_cons_of_pos _ (by simp)]
      exact ⟨n, rfl⟩

theorem buildIdMap_snd (elements : List Element) (n : ℕ) :
    (buildIdMap elements n).2 = n + elements.length :=
  foldIdMap_snd elements [] n

theorem buildIdMap_lookup_range (elements : List Element) (n k v : ℕ)
    (h : lookupA (buildIdMap elements n).1 k = some v) :
    n ≤ v ∧ v < n + elements.length := by
  have hm := lookupA_mem h
  rcases foldIdMap_entries elements [] n _ hm with hin | hb
  · exact absurd hin (List.not_mem_nil _)
  · exact hb

theorem buildIdMap_coverage (elements : List Element) (n k : ℕ)
    (h : k ∈ elements.map (·.id)) :
    ∃ v, lookupA (buildIdMap elements n).1 k = some v :=
  foldIdMap_coverage elements [] n k h

theorem buildIdMap_lookup_none (elements : List Element) (n k : ℕ)
    (h : k ∉ elements.map (·.id)) :
    lookupA (buildIdMap elements n).1 k = none :=
  foldIdMap_lookup_preserved elements [] n k h

theorem foldGroupMap_snd_ge (groups : List GroupRec) :
    ∀ (acc : List (ℕ × ℕ)) (n : ℕ), n ≤ (groups.foldl groupMapStep (acc, n)).2 := by
  induction groups with
  | nil => intro acc n; exact le_refl n
  | cons g rest ih =>
    intro acc n
    rw [List.foldl_cons]
    cases hlk : lookupA acc g.id with
    | some v =>
      rw [show groupMapStep (acc, n) g = (acc, n) from by unfold groupMapStep; rw [hlk]]
      exact ih acc n
    | none =>
      rw [show groupMapStep (acc, n) g = (acc ++ [(g.id, n)], n + 1) from by
        unfold groupMapStep; rw [hlk]]
      exact le_trans (Nat.le_succ n) (ih _ (n + 1))

theorem foldGroupMap_entries (groups : List GroupRec) :
    ∀ (acc : List (ℕ × ℕ)) (n : ℕ),
      ∀ p ∈ (groups.foldl groupMapStep (acc, n)).1,
        p ∈ acc ∨ (n ≤ p.2 ∧ p.2 < (groups.foldl groupMapStep (acc, n)).2) := by
  induction groups with
  | nil => intro acc n p hp; exact Or.inl hp
  | cons g rest ih =>
    intro acc n p hp
    rw [List.foldl_cons] at hp ⊢
    cases hlk : lookupA acc g.id with
    | some v =>
      rw [show groupMapStep (acc, n) g = (acc, n) from by unfold groupMapStep; rw [hlk]] at hp ⊢
      exact ih acc n p hp
    | none =>
      rw [show groupMapStep (acc, n) g = (acc ++ [(g.id, n)], n + 1) from by
        unfold groupMapStep; rw [hlk]] at hp ⊢
      rcases ih _ _ p hp with hin | ⟨h1, h2⟩
      · rcases List.mem_append.mp hin with ha | hone
        · exact Or.inl ha
        · right
          have hpe : p = (g.id, n) := by simpa using hone
          subst hpe
          exact ⟨le_refl n, lt_of_lt_of_le (Nat.lt_succ_self n) (foldGroupMap_snd_ge rest _ _)⟩
      · exact Or.inr ⟨le_trans (Nat.le_succ n) h1, h2⟩

theorem buildGroupMap_lookup_range (groups : List GroupRec) (n k v : ℕ)
    (h : lookupA (buildGroupMap groups n).1 k = some v) :
    n ≤ v ∧ v < (buildGroupMap groups n).2 := by
  have hm := lookupA_mem h
  rcases foldGroupMap_entries groups [] n _ hm with hin | hb
  · exact absurd hin (List.not_mem_nil _)
  · exact hb

theorem translate_element_id (e : Element) (d : Point) :
    (translate_element e d).id = e.id := rfl

theorem translate_element_gid (e : Element) (d : Point) :
    (translate_element e d).group_id = e.group_id := rfl

/-- The placement delta computed by `paste_from_payload` (lines 736–745):
union of the payload bounds, then the distance from that box's minimum to
the context/pointer target (or a (24, 24) default offset). -/
def pasteDelta (vcc : String → ℕ) (s : AppState) (payload : ClipboardPayload) : Point :=
  let base : Option RectF := payload.elements.foldl
    (fun acc e =>
      match acc with
      | some r => some (r.union (element_bounds vcc e))
      | none => some (element_bounds vcc e))
    none
  let base_min := (base.getD ⟨⟨0, 0⟩, ⟨0, 0⟩⟩).min
  let target := (s.context_world_pos.or s.last_pointer_world).getD (base_min + ⟨24, 24⟩)
  target - base_min

theorem ensure_group_exists_elements (d : Document) (gid : ℕ) :
    (ensure_group_exists d gid).elements = d.elements := by
  unfold ensure_group_exists
  split <;> rfl

theorem foldl_ensure_elements (l : List ℕ) :
    ∀ d : Document, (l.foldl ensure_group_exists d).elements = d.elements := by
  induction l with
  | nil => intro d; rfl
  | cons x xs ih =>
    intro d
    rw [List.foldl_cons, ih, ensure_group_exists_elements]

theorem normalize_groups_elements (x : AppState) :
    (normalize_groups x).doc.elements = x.doc.elements := by
  show ((((closeParents x.doc (x.doc.groups.length + 1)
      ((x.doc.elements.filterMap (·.group_id)).toFinset ∪
        (x.doc.groups.map (·.id)).toFinset ∪
        (x.doc.groups.filterMap (·.parent_id)).toFinset)).sort (· ≤ ·)).foldl
      ensure_group_exists x.doc)).elements = x.doc.elements
  exact foldl_ensure_elements _ x.doc

theorem paste_shape (vcc : String → ℕ) (s : AppState) (payload : ClipboardPayload)
    (hne : payload.elements ≠ []) :
    (paste_from_payload vcc s payload).doc.elements
      = s.doc.elements ++ payload.elements.map
          (pasteRemapElement (buildIdMap payload.elements s.next_id).1
            (buildGroupMap payload.groups s.next_group_id).1
            (pasteDelta vcc s payload)) ∧
    (paste_from_payload vcc s payload).next_id = s.next_id + payload.elements.length ∧
    (paste_from_payload vcc s payload).next_group_id
      = (buildGroupMap payload.groups s.next_group_id).2 := by
  unfold paste_from_payload
  rw [if_neg (by simpa [List.isEmpty_iff] using hne)]
  refine ⟨?_, ?_, rfl⟩
  · exact (normalize_groups_elements _).trans rfl
  · exact buildIdMap_snd payload.elements s.next_id

theorem pasteRemap_startBinding (im gm : List (ℕ × ℕ)) (delta : Point) (eo : Element) :
    lineStartBinding (pasteRemapElement im gm delta eo).kind
      = (lineStartBinding eo.kind).bind
          (fun bind => (lookupA im bind.element_id).map
            (fun m => { bind with element_id := m })) := by
  cases eo with
  | mk eid gid rot snap k st => cases k <;> rfl

theorem pasteRemap_endBinding (im gm : List (ℕ × ℕ)) (delta : Point) (eo : Element) :
    lineEndBinding (pasteRemapElement im gm delta eo).kind
      = (lineEndBinding eo.kind).bind
          (fun bind => (lookupA im bind.element_id).map
            (fun m => { bind with element_id := m })) := by
  cases eo with
  | mk eid gid rot snap k st => cases k <;> rfl

theorem pasteRemap_props (elements : List Element) (groups : List GroupRec)
    (nid0 ngid0 : ℕ) (delta : Point) (eo : Element) (he : eo ∈ elements) :
    ∀ en, en = pasteRemapElement (buildIdMap elements nid0).1
        (buildGroupMap groups ngid0).1 delta eo →
      (nid0 ≤ en.id ∧ en.id < nid0 + elements.length) ∧
      (∀ g, en.group_id = some g → ngid0 ≤ g ∧ g < (buildGroupMap groups ngid0).2) ∧
      (∀ bind, lineStartBinding en.kind = some bind →
        nid0 ≤ bind.element_id ∧ bind.element_id < nid0 + elements.length) ∧
      (∀ bind, lineEndBinding en.kind = some bind →
        nid0 ≤ bind.element_id ∧ bind.element_id < nid0 + elements.length) ∧
      (∀ bind, lineStartBinding eo.kind = some bind →
        bind.element_id ∉ elements.map (·.id) → lineStartBinding en.kind = none) ∧
      (∀ bind, lineEndBinding eo.kind = some bind →
        bind.element_id ∉ elements.map (·.id) → lineEndBinding en.kind = none) := by
  intro en hen
  subst hen
  obtain ⟨v, hv⟩ := buildIdMap_coverage elements nid0 eo.id (List.mem_map_of_mem _ he)
  have hvr := buildIdMap_lookup_range elements nid0 eo.id v hv
  refine ⟨?_, ?_, ?_, ?_, ?_, ?_⟩
  · have hid : (pasteRemapElement (buildIdMap elements nid0).1
        (buildGroupMap groups ngid0).1 delta eo).id
        = (lookupA (buildIdMap elements nid0).1 eo.id).getD 0 := rfl
    rw [hid, hv]
    exact hvr
  · intro g hg
    have hg' : (eo.group_id.bind (lookupA (buildGroupMap groups ngid0).1)) = some g := hg
    rcases Option.bind_eq_some.mp hg' with ⟨g0, _, hlk⟩
    exact buildGroupMap_lookup_range groups ngid0 g0 g hlk
  · intro bind hbind
    rw [pasteRemap_startBinding] at hbind
    rcases Option.bind_eq_some.mp hbind with ⟨bind0, _, hmap⟩
    rcases Option.map_eq_some'.mp hmap with ⟨m, hm, hbeq⟩
    have hbm : bind.element_id = m := by rw [← hbeq]
    rw [hbm]
    exact buildIdMap_lookup_range elements nid0 _ m hm
  · intro bind hbind
    rw [pasteRemap_endBinding] at hbind
    rcases Option.bind_eq_some.mp hbind with ⟨bind0, _, hmap⟩
    rcases Option.map_eq_some'.mp hmap with ⟨m, hm, hbeq⟩
    have hbm : bind.element_id = m := by rw [← hbeq]
    rw [hbm]
    exact buildIdMap_lookup_range elements nid0 _ m hm
  · intro bind hbind hout
    rw [pasteRemap_startBinding, hbind, Option.some_bind,
      buildIdMap_lookup_none elements nid0 bind.element_id hout]
    rfl
  · intro bind hbind hout
    rw [pasteRemap_endBinding, hbind, Option.some_bind,
      buildIdMap_lookup_none elements nid0 bind.element_id hout]
    rfl

theorem paste_single_props (vcc : String → ℕ) (s : AppState) (payload : ClipboardPayload)
    (hne : payload.elements ≠ []) :
    (∀ en ∈ (paste_from_payload vcc s payload).doc.elements.drop s.doc.elements.length,
      (s.next_id ≤ en.id ∧ en.id < (paste_from_payload vcc s payload).next_id) ∧
      (∀ g, en.group_id = some g →
        s.next_group_id ≤ g ∧ g < (paste_from_payload vcc s payload).next_group_id) ∧
      (∀ bind, lineStartBinding en.kind = some bind →
        s.next_id ≤ bind.element_id ∧
          bind.element_id < (paste_from_payload vcc s payload).next_id) ∧
      (∀ bind, lineEndBinding en.kind = some bind →
        s.next_id ≤ bind.element_id ∧
          bind.element_id < (paste_from_payload vcc s payload).next_id)) ∧
    List.Forall₂ (fun eo en =>
        (∀ bind, lineStartBinding eo.kind = some bind →
          bind.element_id ∉ payload.elements.map (·.id) →
          lineStartBinding en.kind = none) ∧
        (∀ bind, lineEndBinding eo.kind = some bind →
          bind.element_id ∉ payload.elements.map (·.id) →
          lineEndBinding en.kind = none))
      payload.elements
      ((paste_from_payload vcc s payload).doc.elements.drop s.doc.elements.length) ∧
    (paste_from_payload vcc s payload).doc.elements.take s.doc.elements.length
      = s.doc.elements ∧
    s.next_id ≤ (paste_from_payload vcc s payload).next_id := by
  obtain ⟨hsh, hnid, hngid⟩ := paste_shape vcc s payload hne
  have hdrop : (paste_from_payload vcc s payload).doc.elements.drop s.doc.elements.length
      = payload.elements.map
          (pasteRemapElement (buildIdMap payload.elements s.next_id).1
            (buildGroupMap payload.groups s.next_group_id).1
            (pasteDelta vcc s payload)) := by
    rw [hsh]
    exact List.drop_left _ _
  have htake : (paste_from_payload vcc s payload).doc.elements.take s.doc.elements.length
      = s.doc.elements := by
    rw [hsh]
    exact List.take_left _ _
  refine ⟨?_, ?_, htake, by rw [hnid]; omega⟩
  · intro en hen
    rw [hdrop] at hen
    rcases List.mem_map.mp hen with ⟨eo, heo, hfe⟩
    have hp := pasteRemap_props payload.elements payload.groups s.next_id s.next_group_id
      (pasteDelta vcc s payload) eo heo en hfe.symm
    refine ⟨?_, ?_, ?_, ?_⟩
    · rw [hnid]
      exact hp.1
    · intro g hg
      rw [hngid]
      exact hp.2.1 g hg
    · intro bind hb
      rw [hnid]
      exact hp.2.2.1 bind hb
    · intro bind hb
      rw [hnid]
      exact hp.2.2.2.1 bind hb
  · rw [hdrop, List.forall₂_map_right_iff]
    rw [List.forall₂_same]
    intro eo heo
    have hp := pasteRemap_props payload.elements payload.groups s.next_id s.next_group_id
      (pasteDelta vcc s payload) eo heo _ rfl
    exact ⟨hp.2.2.2.2.1, hp.2.2.2.2.2⟩

/-- C4: pasting the same payload twice produces element-id sets confined to
the two successive fresh allocator ranges, hence disjoint from each other
and from all pre-existing ids (under the allocator invariant that existing
ids are below `next_id`); within each pasted copy every `group_id` refers to
a group id freshly allocated for that copy and every line binding refers to
an element id freshly allocated for that copy; and a binding whose target
was not in the payload is cleared to `None`, not redirected. -/
theorem paste_twice_noncollision (vcc : String → ℕ) (s : AppState)
    (payload : ClipboardPayload)
    (hids : ∀ e ∈ s.doc.elements, e.id < s.next_id)
    (hne : payload.elements ≠ []) :
    ∀ s1 s2 new1 new2,
      s1 = paste_from_payload vcc s payload →
      s2 = paste_from_payload vcc s1 payload →
      new1 = s1.doc.elements.drop s.doc.elements.length →
      new2 = s2.doc.elements.drop s1.doc.elements.length →
      (∀ en ∈ new1, s.next_id ≤ en.id ∧ en.id < s1.next_id) ∧
      (∀ en ∈ new2, s1.next_id ≤ en.id ∧ en.id < s2.next_id) ∧
      (∀ e ∈ s.doc.elements, ∀ en ∈ new1, e.id ≠ en.id) ∧
      (∀ e ∈ s.doc.elements, ∀ en ∈ new2, e.id ≠ en.id) ∧
      (∀ en1 ∈ new1, ∀ en2 ∈ new2, en1.id ≠ en2.id) ∧
      (∀ en ∈ new1,
        (∀ g, en.group_id = some g → s.next_group_id ≤ g ∧ g < s1.next_group_id) ∧
        (∀ bind, lineStartBinding en.kind = some bind →
          s.next_id ≤ bind.element_id ∧ bind.element_id < s1.next_id) ∧
        (∀ bind, lineEndBinding en.kind = some bind →
          s.next_id ≤ bind.element_id ∧ bind.element_id < s1.next_id)) ∧
      (∀ en ∈ new2,
        (∀ g, en.group_id = some g → s1.next_group_id ≤ g ∧ g < s2.next_group_id) ∧
        (∀ bind, lineStartBinding en.kind = some bind →
          s1.next_id ≤ bind.element_id ∧ bind.element_id < s2.next_id) ∧
        (∀ bind, lineEndBinding en.kind = some bind →
          s1.next_id ≤ bind.element_id ∧ bind.element_id < s2.next_id)) ∧
      List.Forall₂ (fun eo en =>
          (∀ bind, lineStartBinding eo.kind = some bind →
            bind.element_id ∉ payload.elements.map (·.id) →
            lineStartBinding en.kind = none) ∧
          (∀ bind, lineEndBinding eo.kind = some bind →
            bind.element_id ∉ payload.elements.map (·.id) →
            lineEndBinding en.kind = none))
        payload.elements new1 ∧
      List.Forall₂ (fun eo en =>
          (∀ bind, lineStartBinding eo.kind = some bind →
            bind.element_id ∉ payload.elements.map (·.id) →
            lineStartBinding en.kind = none) ∧
          (∀ bind, lineEndBinding eo.kind = some bind →
            bind.element_id ∉ payload.elements.map (·.id) →
            lineEndBinding en.kind = none))
        payload.elements new2 := by
  intro s1 s2 new1 new2 hs1 hs2 hn1 hn2
  subst hn1
  subst hn2
  subst hs2
  subst hs1
  obtain ⟨props1, fa1, take1, mono1⟩ := paste_single_props vcc s payload hne
  obtain ⟨props2, fa2, take2, mono2⟩ :=
    paste_single_props vcc (paste_from_payload vcc s payload) payload hne
  refine ⟨fun en hen => (props1 en hen).1, fun en hen => (props2 en hen).1,
    ?_, ?_, ?_,
    fun en hen => ⟨(props1 en hen).2.1, (props1 en hen).2.2.1, (props1 en hen).2.2.2⟩,
    fun en hen => ⟨(props2 en hen).2.1, (props2 en hen).2.2.1, (props2 en hen).2.2.2⟩,
    fa1, fa2⟩
  · intro e he en hen
    have h1 := (props1 en hen).1.1
    have h2 := hids e he
    omega
  · intro e he en hen
    have h1 := (props2 en hen).1.1
    have h2 := hids e he
    omega
  · intro en1 hen1 en2 hen2
    have h1 := (props1 en1 hen1).1.2
    have h2 := (props2 en2 hen2).1.1
    omega

/-- Witness for C4 at a concrete one-rectangle state and one-element
payload. -/
theorem paste_twice_noncollision_witness :
    List.Forall
      (fun en => appC1.next_id ≤ en.id ∧
        en.id < (paste_from_payload (fun _ => 0) appC1 payloadC1).next_id)
      ((paste_from_payload (fun _ => 0) appC1 payloadC1).doc.elements.drop
        appC1.doc.elements.length) :=
  List.forall_iff_forall_mem.mpr
  (paste_twice_noncollision (fun _ => 0) appC1 payloadC1
    (by
      intro e he
      have heq : e = ⟨1, none, 0, true, .rect ⟨⟨0, 0⟩, ⟨10, 10⟩⟩ "", styleW⟩ := by
        simpa [appC1] using he
      rw [heq]
      show (1 : ℕ) < 2
      norm_num)
    (by intro h; exact List.noConfusion h)
    _ _ _ _ rfl rfl rfl rfl).1
